import Mathlib

/-!
# drone-runtime, `engine/gcr.go`: GCR credentials and registry host matching

A shallow embedding of `engine/gcr.go` together with the standard-library
routines it calls (`path/filepath.Match`, `unicode/utf8`, `fmt` verbs `%d %s %v`,
`encoding/json.Unmarshal` into `tokenBlob`), followed by theorems about
`isGCRHost`, `readUrl` and `getCredentialsForGCR`.

Go strings and byte slices are sequences of bytes; they are embedded as lists
of natural numbers (each byte a number below 256). Bytes are written by their
codes: 9 tab, 10 line feed, 13 carriage return, 32 space, 34 double quote,
39 single quote, 42 star, 43 plus, 44 comma, 45 minus, 46 dot, 47 slash,
48 to 57 the digits, 58 colon, 63 question mark, 65 to 70 `A` to `F`, 69 `E`,
91 opening bracket, 92 backslash, 93 closing bracket, 94 caret, 97 to 102 `a`
to `f`, 110 `n`, 114 `r`, 116 `t`, 117 `u`, 123 and 125 the braces.

The library routines follow the Go standard library on Unix, in the version
of Go 1.16 and later, in which `Match` reports a malformed pattern also
after the name has failed to match. A loop of the library whose rounds are not
bounded by the structure of its input takes a bound `fuel` on its rounds; for
each such loop a theorem (`..._fuel`) shows that the bound given to it is never
reached.
-/

namespace Gcr

/-- A Go `string` / `[]byte`: a sequence of bytes. -/
abbrev GoString := List Nat

/-! ## `unicode/utf8` -/

namespace utf8

/-- `utf8.RuneError`, U+FFFD. -/
def RuneError : Nat := 65533

/-- `utf8.AppendRune` / `utf8.EncodeRune`: the UTF-8 encoding of a rune;
out-of-range runes and surrogates are encoded as `RuneError`. -/
def EncodeRune (r : Nat) : GoString :=
  if r < 128 then [r]
  else if r < 2048 then [192 + r / 64, 128 + r % 64]
  else if 1114111 < r ∨ (55296 ≤ r ∧ r ≤ 57343) then [239, 191, 189]
  else if r < 65536 then [224 + r / 4096, 128 + r / 64 % 64, 128 + r % 64]
  else [240 + r / 262144, 128 + r / 4096 % 64, 128 + r / 64 % 64, 128 + r % 64]

/-- The table `first` joined with `acceptRanges`: for a leading byte of a
multi-byte sequence, the sequence length and the accepted range of the second
byte; `none` for the bytes marked `xx` (invalid as a first byte). -/
def first (s0 : Nat) : Option (Nat × Nat × Nat) :=
  if 194 ≤ s0 ∧ s0 ≤ 223 then some (2, 128, 191)
  else if s0 = 224 then some (3, 160, 191)
  else if 225 ≤ s0 ∧ s0 ≤ 236 then some (3, 128, 191)
  else if s0 = 237 then some (3, 128, 159)
  else if 238 ≤ s0 ∧ s0 ≤ 239 then some (3, 128, 191)
  else if s0 = 240 then some (4, 144, 191)
  else if 241 ≤ s0 ∧ s0 ≤ 243 then some (4, 128, 191)
  else if s0 = 244 then some (4, 128, 143)
  else none

/-- `utf8.DecodeRuneInString`: the first rune of `s` and its width in bytes;
`(RuneError, 0)` on the empty string and `(RuneError, 1)` on an invalid
encoding. Masks and shifts are written as `%` and `*` by powers of two. -/
def DecodeRuneInString (s : GoString) : Nat × Nat :=
  match s with
  | [] => (RuneError, 0)
  | s0 :: t =>
    if s0 < 128 then (s0, 1)
    else
      match first s0 with
      | none => (RuneError, 1)
      | some (sz, lo, hi) =>
        if s.length < sz then (RuneError, 1)
        else
          match t with
          | [] => (RuneError, 1)
          | s1 :: t1 =>
            if s1 < lo ∨ hi < s1 then (RuneError, 1)
            else if sz ≤ 2 then (s0 % 32 * 64 + s1 % 64, 2)
            else
              match t1 with
              | [] => (RuneError, 1)
              | s2 :: t2 =>
                if s2 < 128 ∨ 191 < s2 then (RuneError, 1)
                else if sz ≤ 3 then (s0 % 16 * 4096 + s1 % 64 * 64 + s2 % 64, 3)
                else
                  match t2 with
                  | [] => (RuneError, 1)
                  | s3 :: _ =>
                    if s3 < 128 ∨ 191 < s3 then (RuneError, 1)
                    else (s0 % 8 * 262144 + s1 % 64 * 4096 + s2 % 64 * 64 + s3 % 64, 4)

end utf8

/-- A Go string literal: the UTF-8 bytes of the text. -/
def str (s : String) : GoString := s.toList.flatMap (fun c => utf8.EncodeRune c.toNat)

/-! ## `path/filepath.Match` (Unix: `Separator = '/'`, backslash escapes) -/

namespace filepath

/-- `filepath.Separator` on Unix, the byte `'/'`. -/
def Separator : Nat := 47

/-- The only error `Match` returns. -/
inductive MatchError where
  | ErrBadPattern
  deriving DecidableEq, Repr

open MatchError

/-- The scanning loop of `scanChunk` after the leading stars are removed:
splits the pattern before the first `*` that is outside a bracket
expression. A backslash skips the byte after it, when there is one. -/
def scanSplit : Bool → GoString → GoString × GoString
  | _, [] => ([], [])
  | inrange, c :: p =>
    if c = 92 then
      match p with
      | [] => ([c], [])
      | d :: q => let r := scanSplit inrange q; (c :: d :: r.1, r.2)
    else if c = 91 then let r := scanSplit true p; (c :: r.1, r.2)
    else if c = 93 then let r := scanSplit false p; (c :: r.1, r.2)
    else if c = 42 then
      if inrange then let r := scanSplit inrange p; (c :: r.1, r.2)
      else ([], c :: p)
    else let r := scanSplit inrange p; (c :: r.1, r.2)

/-- `scanChunk`: the next segment of the pattern, a star-free string possibly
preceded by stars. Returns `(star, chunk, rest)`. -/
def scanChunk (pattern : GoString) : Bool × GoString × GoString :=
  let p := pattern.dropWhile (fun c => c = 42)
  let r := scanSplit false p
  (pattern.head? = some 42, r.1, r.2)

/-- `getEsc`: a possibly escaped character of a character class, with the
rest of the chunk. -/
def getEsc (chunk : GoString) : Except MatchError (Nat × GoString) :=
  match chunk with
  | [] => .error ErrBadPattern
  | c :: rest =>
    if c = 45 ∨ c = 93 then .error ErrBadPattern
    else
      let chunk1 := if c = 92 then rest else chunk
      if c = 92 ∧ rest = [] then .error ErrBadPattern
      else
        let d := utf8.DecodeRuneInString chunk1
        let nchunk := chunk1.drop d.2
        if d.1 = utf8.RuneError ∧ d.2 = 1 then .error ErrBadPattern
        else if nchunk = [] then .error ErrBadPattern
        else .ok (d.1, nchunk)

/-- The `for` loop of `matchChunk` that parses the ranges of a character
class. `r` is the rune under test; the result is the chunk after the closing
`]` and whether some range held `r`, or the error of a malformed class. Each
round takes at least one byte off the chunk; `fuel` bounds the rounds, and
`none` says that the bound was reached. -/
def classLoop : Nat → GoString → Nat → Bool → Nat →
    Option (Except MatchError (GoString × Bool))
  | 0, _, _, _, _ => none
  | fuel + 1, chunk, r, matched, nrange =>
    if chunk.head? = some 93 ∧ 0 < nrange then some (.ok (chunk.tail, matched))
    else
      match getEsc chunk with
      | .error e => some (.error e)
      | .ok (lo, chunk1) =>
        match (if chunk1.head? = some 45 then getEsc chunk1.tail else .ok (lo, chunk1)) with
        | .error e => some (.error e)
        | .ok (hi, chunk2) =>
          classLoop fuel chunk2 r (matched || (decide (lo ≤ r) && decide (r ≤ hi))) (nrange + 1)

/-- The loop of `matchChunk`, with the flag `failed` as an argument. The
result is `some rest` when the chunk matches a prefix of `s` (`ok = true`),
`none` when it does not, and an error when the chunk is malformed. Each round
takes at least one byte off the chunk; `fuel` bounds the rounds, and the outer
`none` says that the bound was reached. -/
def matchChunkLoop : Nat → GoString → GoString → Bool →
    Option (Except MatchError (Option GoString))
  | 0, _, _, _ => none
  | fuel + 1, chunk, s, failed =>
    match chunk with
    | [] => some (.ok (if failed then none else some s))
    | c :: chunk1 =>
      let failed := failed || decide (s = [])
      if c = 91 then
        let d := utf8.DecodeRuneInString s
        let r := if failed then 0 else d.1
        let s1 := if failed then s else s.drop d.2
        let negated := decide (chunk1.head? = some 94)
        let chunk2 := if negated then chunk1.tail else chunk1
        match classLoop fuel chunk2 r false 0 with
        | none => none
        | some (.error e) => some (.error e)
        | some (.ok (chunk3, matched)) =>
          matchChunkLoop fuel chunk3 s1 (failed || (matched == negated))
      else if c = 63 then
        if failed then matchChunkLoop fuel chunk1 s failed
        else
          matchChunkLoop fuel chunk1 (s.drop (utf8.DecodeRuneInString s).2)
            (decide (s.head? = some Separator))
      else
        let lit (b : Nat) (chunk2 : GoString) : Option (Except MatchError (Option GoString)) :=
          if failed then matchChunkLoop fuel chunk2 s failed
          else matchChunkLoop fuel chunk2 s.tail (decide (s.head? ≠ some b))
        if c = 92 then
          match chunk1 with
          | [] => some (.error ErrBadPattern)
          | b :: chunk2 => lit b chunk2
        else lit c chunk1

/-- `matchChunk`: does the chunk match the beginning of `s`; if so, the
remainder of `s`. The loop is given one round more than the chunk has bytes,
which it never uses up (`matchChunkLoop_fuel`). -/
def matchChunk (chunk s : GoString) : Except MatchError (Option GoString) :=
  match matchChunkLoop (chunk.length + 1) chunk s false with
  | some r => r
  | none => .error ErrBadPattern

/-- The inner loop of `Match` for a chunk preceded by a star:
`for i := 0; i < len(name) && name[i] != Separator; i++`, trying the chunk at
`name[i+1:]`. `last` says that no pattern is left after the chunk. The result
is `some t` when the loop ends in `continue Pattern` with `name = t`, and
`none` when it runs to its end. -/
def starLoop (chunk : GoString) (last : Bool) : GoString → Except MatchError (Option GoString)
  | [] => .ok none
  | c :: rest =>
    if c = Separator then .ok none
    else
      match matchChunk chunk rest with
      | .error e => .error e
      | .ok none => starLoop chunk last rest
      | .ok (some t) =>
        if last ∧ t ≠ [] then starLoop chunk last rest else .ok (some t)

/-- The `Pattern:` loop of `Match`. Each round takes at least one byte off
the pattern; `fuel` bounds the rounds, and `none` says that the bound was
reached. -/
def matchLoop : Nat → GoString → GoString → Option (Except MatchError Bool)
  | 0, _, _ => none
  | fuel + 1, pattern, name =>
    if pattern = [] then some (.ok (decide (name = [])))
    else
      let sc := scanChunk pattern
      let star := sc.1
      let chunk := sc.2.1
      let rest := sc.2.2
      if star ∧ chunk = [] then some (.ok (decide (Separator ∉ name)))
      else
        match matchChunk chunk name with
        | .error e => some (.error e)
        | .ok r =>
          let direct : Option GoString :=
            match r with
            | some t => if t = [] ∨ rest ≠ [] then some t else none
            | none => none
          match direct with
          | some t => matchLoop fuel rest t
          | none =>
            if star then
              match starLoop chunk (decide (rest = [])) name with
              | .error e => some (.error e)
              | .ok (some t) => matchLoop fuel rest t
              | .ok none => some (.ok false)
            else some (.ok false)

/-- `filepath.Match(pattern, name)`: `(matched, err)`. The loop is given one
round more than the pattern has bytes, which it never uses up
(`matchLoop_fuel`). -/
def Match (pattern name : GoString) : Except MatchError Bool :=
  match matchLoop (pattern.length + 1) pattern name with
  | some r => r
  | none => .error ErrBadPattern

end filepath

/-! ## `isGCRHost` -/

/-- The package variable `containerRegistryUrls`. -/
def containerRegistryUrls : List GoString :=
  [str "container.cloud.google.com", str "gcr.io", str "*.gcr.io"]

/-- The loop of `isGCRHost` over a list of patterns: `true` at the first
pattern `r` with `filepath.Match(r, host)` returning `(true, nil)`, `false`
when the list is exhausted. -/
def anyPatternMatches : List GoString → GoString → Bool
  | [], _ => false
  | r :: rs, host =>
    match filepath.Match r host with
    | .ok true => true
    | _ => anyPatternMatches rs host

/-- `isGCRHost(host)`. -/
def isGCRHost (host : GoString) : Bool :=
  anyPatternMatches containerRegistryUrls host


/-! ## `encoding/json.Unmarshal` into a `tokenBlob` -/

/-- The struct `tokenBlob`: the JSON blob with an access token that GCE
metadata returns; its field is tagged `json:"access_token"`. -/
structure tokenBlob where
  AccessToken : GoString
  deriving DecidableEq, Repr

namespace json

/-- A parsed JSON text. Strings and object keys hold their unquoted bytes. -/
inductive Value where
  | null
  | bool (b : Bool)
  | number (literal : GoString)
  | string (s : GoString)
  | array (elems : List Value)
  | object (members : List (GoString × Value))

/-- The error values `Unmarshal` can return for a `*tokenBlob` target:
`*SyntaxError`, and `*UnmarshalTypeError` with the kind of value met. -/
inductive UnmarshalError where
  | SyntaxError
  | UnmarshalTypeError (Value : String)
  deriving DecidableEq, Repr

/-- `maxNestingDepth` of the scanner. -/
def maxNestingDepth : Nat := 10000

/-- `isSpace`: the four whitespace bytes of JSON. -/
def isSpace (c : Nat) : Bool := c = 32 || c = 9 || c = 13 || c = 10

/-- Skips whitespace. -/
def skipSpace (s : GoString) : GoString := s.dropWhile isSpace

/-- The value of a hexadecimal digit. -/
def hexVal (c : Nat) : Option Nat :=
  if 48 ≤ c ∧ c ≤ 57 then some (c - 48)
  else if 97 ≤ c ∧ c ≤ 102 then some (c - 97 + 10)
  else if 65 ≤ c ∧ c ≤ 70 then some (c - 65 + 10)
  else none

/-- `getu4`: the rune of a `\uXXXX` escape at the start of `s`, `none` (Go:
`-1`) when `s` does not start with one. -/
def getu4 (s : GoString) : Option Nat :=
  match s with
  | 92 :: 117 :: a :: b :: c :: d :: _ =>
    match hexVal a, hexVal b, hexVal c, hexVal d with
    | some a, some b, some c, some d => some (((a * 16 + b) * 16 + c) * 16 + d)
    | _, _, _, _ => none
  | _ => none

/-- The states of the scanner inside a string: `stateInString`,
`stateInStringEsc`, `stateInStringEscU`, `stateInStringEscU1`,
`stateInStringEscU12`, `stateInStringEscU123`. -/
inductive StringState where
  | inString
  | inStringEsc
  | inStringEscU
  | inStringEscU1
  | inStringEscU12
  | inStringEscU123
  deriving DecidableEq, Repr

/-- The scanner inside a string, started in `stateInString` after the
opening quote: returns the bytes up to the closing quote and the input after
it. Bytes below 0x20 and malformed escapes are syntax errors, and so is the
end of the input. -/
def scanStringFrom : StringState → GoString → Option (GoString × GoString)
  | _, [] => none
  | .inString, c :: s =>
    if c = 34 then some ([], s)
    else if c = 92 then (scanStringFrom .inStringEsc s).map (fun r => (c :: r.1, r.2))
    else if c < 32 then none
    else (scanStringFrom .inString s).map (fun r => (c :: r.1, r.2))
  | .inStringEsc, c :: s =>
    if c = 98 ∨ c = 102 ∨ c = 110 ∨ c = 114 ∨ c = 116 ∨ c = 92 ∨ c = 47 ∨ c = 34 then
      (scanStringFrom .inString s).map (fun r => (c :: r.1, r.2))
    else if c = 117 then (scanStringFrom .inStringEscU s).map (fun r => (c :: r.1, r.2))
    else none
  | .inStringEscU, c :: s =>
    if (hexVal c).isSome then (scanStringFrom .inStringEscU1 s).map (fun r => (c :: r.1, r.2))
    else none
  | .inStringEscU1, c :: s =>
    if (hexVal c).isSome then (scanStringFrom .inStringEscU12 s).map (fun r => (c :: r.1, r.2))
    else none
  | .inStringEscU12, c :: s =>
    if (hexVal c).isSome then (scanStringFrom .inStringEscU123 s).map (fun r => (c :: r.1, r.2))
    else none
  | .inStringEscU123, c :: s =>
    if (hexVal c).isSome then (scanStringFrom .inString s).map (fun r => (c :: r.1, r.2))
    else none

/-- The scanner on a string after its opening quote. -/
def scanString (s : GoString) : Option (GoString × GoString) :=
  scanStringFrom .inString s

/-- The first loop of `unquoteBytes`: `true` when the string has no
backslash, quote, control byte or malformed UTF-8, so that it is returned as
it is. Each round takes at least one byte; `fuel` bounds the rounds, and
`none` says that the bound was reached. -/
def needsNoUnquote : Nat → GoString → Option Bool
  | 0, _ => none
  | _ + 1, [] => some true
  | fuel + 1, c :: s =>
    if c = 92 ∨ c = 34 ∨ c < 32 then some false
    else if c < 128 then needsNoUnquote fuel s
    else
      let d := utf8.DecodeRuneInString (c :: s)
      if d.1 = utf8.RuneError ∧ d.2 = 1 then some false
      else needsNoUnquote fuel ((c :: s).drop d.2)

/-- `utf16.DecodeRune`: the rune of a surrogate pair, U+FFFD when the pair
is not valid. -/
def utf16DecodeRune (r1 r2 : Nat) : Nat :=
  if 55296 ≤ r1 ∧ r1 < 56320 ∧ 56320 ≤ r2 ∧ r2 < 57344 then
    (r1 - 55296) * 1024 + (r2 - 56320) + 65536
  else 65533

/-- Writes the bytes `bs` in front of what the rest of the loop writes. -/
def emit (bs : GoString) (r : Option (Option GoString)) : Option (Option GoString) :=
  r.map (fun o => o.map (fun t => bs ++ t))

/-- The second loop of `unquoteBytes`, on the bytes between the quotes:
escapes are replaced, surrogate pairs joined, and malformed UTF-8 coerced to
U+FFFD. The result is `some t` for the unquoted bytes `t` and `none` where Go
returns `ok = false`. Each round takes at least one byte; `fuel` bounds the
rounds, and the outer `none` says that the bound was reached. -/
def unquoteLoop : Nat → GoString → Option (Option GoString)
  | 0, _ => none
  | _ + 1, [] => some (some [])
  | fuel + 1, c :: s =>
    if c = 92 then
      match s with
      | [] => some none
      | e :: s1 =>
        if e = 34 ∨ e = 92 ∨ e = 47 ∨ e = 39 then emit [e] (unquoteLoop fuel s1)
        else if e = 98 then emit [8] (unquoteLoop fuel s1)
        else if e = 102 then emit [12] (unquoteLoop fuel s1)
        else if e = 110 then emit [10] (unquoteLoop fuel s1)
        else if e = 114 then emit [13] (unquoteLoop fuel s1)
        else if e = 116 then emit [9] (unquoteLoop fuel s1)
        else if e = 117 then
          match getu4 (c :: s) with
          | none => some none
          | some rr =>
            let s2 := (c :: s).drop 6
            if 55296 ≤ rr ∧ rr < 57344 then
              let dec := match getu4 s2 with
                | some rr1 => utf16DecodeRune rr rr1
                | none => 65533
              if dec ≠ 65533 then emit (utf8.EncodeRune dec) (unquoteLoop fuel (s2.drop 6))
              else emit (utf8.EncodeRune 65533) (unquoteLoop fuel s2)
            else emit (utf8.EncodeRune rr) (unquoteLoop fuel s2)
        else some none
    else if c = 34 ∨ c < 32 then some none
    else if c < 128 then emit [c] (unquoteLoop fuel s)
    else
      let d := utf8.DecodeRuneInString (c :: s)
      emit (utf8.EncodeRune d.1) (unquoteLoop fuel ((c :: s).drop d.2))

/-- `unquoteBytes`, on the bytes between the quotes. Both loops are given
one round more than the string has bytes, which they never use up
(`needsNoUnquote_fuel`, `unquoteLoop_fuel`). -/
def unquote (s : GoString) : Option GoString :=
  match needsNoUnquote (s.length + 1) s with
  | some true => some s
  | _ =>
    match unquoteLoop (s.length + 1) s with
    | some r => r
    | none => none

/-- The scanner on the digits of a number (states `state1`, `stateDot0`,
`stateE0`): drops the leading digits. -/
def skipDigits (s : GoString) : GoString := s.dropWhile (fun c => decide (48 ≤ c ∧ c ≤ 57))

/-- Drops a leading minus sign. -/
def skipMinus : GoString → GoString
  | 45 :: t => t
  | s => s

/-- Drops a leading plus or minus sign. -/
def skipSign : GoString → GoString
  | 43 :: t => t
  | 45 :: t => t
  | s => s

/-- The integer part of a number (states `stateNeg`, `state0`, `state1`): an
optional minus sign, then `0` or a digit from 1 to 9 followed by digits.
Returns the input after it. -/
def scanInt (s : GoString) : Option GoString :=
  match skipMinus s with
  | [] => none
  | c :: t =>
    if c = 48 then some t
    else if 49 ≤ c ∧ c ≤ 57 then some (skipDigits t)
    else none

/-- The fraction of a number, when there is one (states `stateDot`,
`stateDot0`): a dot followed by at least one digit. -/
def scanFrac (s : GoString) : Option GoString :=
  match s with
  | [] => some s
  | c :: t =>
    if c = 46 then
      match t with
      | [] => none
      | d :: u => if 48 ≤ d ∧ d ≤ 57 then some (skipDigits u) else none
    else some s

/-- The exponent of a number, when there is one (states `stateE`,
`stateESign`, `stateE0`): `e` or `E`, an optional sign, at least one digit. -/
def scanExp (s : GoString) : Option GoString :=
  match s with
  | [] => some s
  | c :: t =>
    if c = 101 ∨ c = 69 then
      match skipSign t with
      | [] => none
      | d :: u => if 48 ≤ d ∧ d ≤ 57 then some (skipDigits u) else none
    else some s

/-- The scanner on a number: the number's bytes and the input after it. -/
def scanNumber (s : GoString) : Option (GoString × GoString) :=
  match (scanInt s).bind scanFrac |>.bind scanExp with
  | some rest => some (s.take (s.length - rest.length), rest)
  | none => none

/-- The outcome of scanning a value: the value with the input after it, a
syntax error, or the bound on the nesting of calls reached. -/
inductive Scanned (α : Type) where
  | value (a : α) (rest : GoString)
  | syntaxError
  | outOfFuel

/-- Applies `f` to the value scanned. -/
def Scanned.map {α β : Type} (f : α → β) : Scanned α → Scanned β
  | .value a rest => .value (f a) rest
  | .syntaxError => .syntaxError
  | .outOfFuel => .outOfFuel

mutual

/-- The scanner and decoder on one value (state `stateBeginValue`): skips
whitespace, reads one value, returns it with the input after it. `depth` is
the number of enclosing arrays and objects. `fuel` bounds the nesting of
calls. -/
def parseValue : Nat → Nat → GoString → Scanned Value
  | 0, _, _ => .outOfFuel
  | fuel + 1, depth, input =>
    match skipSpace input with
    | [] => .syntaxError
    | c :: s =>
      if c = 123 then
        if maxNestingDepth ≤ depth then .syntaxError
        else
          match skipSpace s with
          | 125 :: s1 => .value (.object []) s1
          | _ => (parseMembers fuel (depth + 1) s).map .object
      else if c = 91 then
        if maxNestingDepth ≤ depth then .syntaxError
        else
          match skipSpace s with
          | 93 :: s1 => .value (.array []) s1
          | _ => (parseElements fuel (depth + 1) s).map .array
      else if c = 34 then
        match scanString s with
        | none => .syntaxError
        | some (raw, s1) =>
          match unquote raw with
          | some t => .value (.string t) s1
          | none => .syntaxError
      else if c = 45 ∨ (48 ≤ c ∧ c ≤ 57) then
        match scanNumber (c :: s) with
        | some (literal, s1) => .value (.number literal) s1
        | none => .syntaxError
      else if c = 116 then
        match s with
        | 114 :: 117 :: 101 :: s1 => .value (.bool true) s1
        | _ => .syntaxError
      else if c = 102 then
        match s with
        | 97 :: 108 :: 115 :: 101 :: s1 => .value (.bool false) s1
        | _ => .syntaxError
      else if c = 110 then
        match s with
        | 117 :: 108 :: 108 :: s1 => .value .null s1
        | _ => .syntaxError
      else .syntaxError

/-- The members of an object after `{` or `,` (state `stateBeginString`),
up to and including the closing `}`. -/
def parseMembers : Nat → Nat → GoString → Scanned (List (GoString × Value))
  | 0, _, _ => .outOfFuel
  | fuel + 1, depth, input =>
    match skipSpace input with
    | 34 :: s =>
      match scanString s with
      | none => .syntaxError
      | some (raw, s1) =>
        match unquote raw, skipSpace s1 with
        | some key, 58 :: s2 =>
          match parseValue fuel depth s2 with
          | .syntaxError => .syntaxError
          | .outOfFuel => .outOfFuel
          | .value v s3 =>
            match skipSpace s3 with
            | 44 :: s4 => (parseMembers fuel depth s4).map (fun ms => (key, v) :: ms)
            | 125 :: s4 => .value [(key, v)] s4
            | _ => .syntaxError
        | _, _ => .syntaxError
    | _ => .syntaxError

/-- The elements of an array after `[` or `,` (state `stateBeginValue`), up
to and including the closing `]`. -/
def parseElements : Nat → Nat → GoString → Scanned (List Value)
  | 0, _, _ => .outOfFuel
  | fuel + 1, depth, input =>
    match parseValue fuel depth input with
    | .syntaxError => .syntaxError
    | .outOfFuel => .outOfFuel
    | .value v s1 =>
      match skipSpace s1 with
      | 44 :: s2 => (parseElements fuel depth s2).map (fun vs => v :: vs)
      | 93 :: s2 => .value [v] s2
      | _ => .syntaxError

end

/-- The whole input as one JSON value, with whitespace allowed around it;
`none` when `checkValid` reports a syntax error. The scanner is given two
levels of calls for every byte and two more, which it never uses up
(`parseValue_fuel`). -/
def parse (data : GoString) : Option Value :=
  match parseValue (2 * data.length + 2) 0 data with
  | .value v rest => if skipSpace rest = [] then some v else none
  | _ => none

/-- `json.Valid(data)`. -/
def Valid (data : GoString) : Bool := (parse data).isSome

/-- Does an object key select the field tagged `name`, an upper-case ASCII
name here: byte for byte after folding case. Of the runes outside ASCII only
U+017F (folds to `S`) and U+212A (folds to `K`) fold to an ASCII letter. Each
round takes at least one byte of the key; `fuel` bounds the rounds, and `none`
says that the bound was reached. -/
def equalFold : Nat → GoString → GoString → Option Bool
  | 0, _, _ => none
  | _ + 1, [], key => some (decide (key = []))
  | _ + 1, _ :: _, [] => some false
  | fuel + 1, n :: name, c :: key =>
    if c < 128 then
      let up := if 97 ≤ c ∧ c ≤ 122 then c - 32 else c
      if up = n then equalFold fuel name key else some false
    else
      let d := utf8.DecodeRuneInString (c :: key)
      let folded := if d.1 = 383 then some 83 else if d.1 = 8490 then some 75 else none
      if folded = some n then equalFold fuel name ((c :: key).drop d.2) else some false

/-- Does the key select the field `AccessToken`: the exact name
`access_token`, or the name up to case. The loop is given one round more than
the key has bytes, which it never uses up (`equalFold_fuel`). -/
def selectsAccessToken (key : GoString) : Bool :=
  decide (key = str "access_token") ||
    (equalFold (key.length + 1) (str "ACCESS_TOKEN") key).getD false

/-- The state of the decoder: the struct being filled and `d.savedError`, the
first type error met. -/
structure decodeState where
  blob : tokenBlob
  savedError : Option UnmarshalError

/-- `d.saveError`: keeps the first error. -/
def decodeState.saveError (d : decodeState) (e : UnmarshalError) : decodeState :=
  match d.savedError with
  | none => { d with savedError := some e }
  | some _ => d

/-- Storing a value into the string field `AccessToken`: a string is stored,
`null` leaves the field as it is, any other value is a type error. -/
def storeAccessToken (d : decodeState) : Value → decodeState
  | .string s => { d with blob := { AccessToken := s } }
  | .null => d
  | .bool _ => d.saveError (.UnmarshalTypeError "bool")
  | .number _ => d.saveError (.UnmarshalTypeError "number")
  | .array _ => d.saveError (.UnmarshalTypeError "array")
  | .object _ => d.saveError (.UnmarshalTypeError "object")

/-- The loop of `d.object` over the members of an object: a member whose key
selects `AccessToken` is stored, the others are skipped. -/
def decodeMembers (d : decodeState) : List (GoString × Value) → decodeState
  | [] => d
  | (key, v) :: ms =>
    decodeMembers (if selectsAccessToken key then storeAccessToken d v else d) ms

/-- `d.value` on a struct target of type `tokenBlob`. -/
def decodeValue (d : decodeState) : Value → decodeState
  | .object ms => decodeMembers d ms
  | .null => d
  | .bool _ => d.saveError (.UnmarshalTypeError "bool")
  | .number _ => d.saveError (.UnmarshalTypeError "number")
  | .string _ => d.saveError (.UnmarshalTypeError "string")
  | .array _ => d.saveError (.UnmarshalTypeError "array")

/-- `json.Unmarshal(data, &parsedBlob)` for a zero `parsedBlob`: the filled
struct, or the error returned. -/
def Unmarshal (data : GoString) : Except UnmarshalError tokenBlob :=
  match parse data with
  | none => .error .SyntaxError
  | some v =>
    let d := decodeValue { blob := { AccessToken := [] }, savedError := none } v
    match d.savedError with
    | some e => .error e
    | none => .ok d.blob

end json

/-! ## `fmt` and errors -/

/-- The verb `%d` on an `int`: decimal digits, with a minus sign when
negative. -/
def fmtInt (i : Int) : GoString := str (toString i)

/-- The struct `HttpError`: wraps a non-StatusOK status code as an error. -/
structure HttpError where
  StatusCode : Int
  Url : GoString
  deriving DecidableEq, Repr

/-- `(*HttpError).Error`:
`fmt.Sprintf("http status code: %d while fetching url %s", he.StatusCode, he.Url)`. -/
def HttpError.Error (he : HttpError) : GoString :=
  str "http status code: " ++ fmtInt he.StatusCode ++ str " while fetching url " ++ he.Url

/-- A Go `error` value, by the code that made it. -/
inductive GoError where
  /-- an error made by `net/http`, `net/url` or `io`; its text is its only
  content here -/
  | foreign (text : GoString)
  /-- an error returned by `json.Unmarshal` -/
  | json (e : json.UnmarshalError)
  /-- a `*HttpError` -/
  | http (he : HttpError)
  /-- the error `fmt.Errorf` returns, with the formatted text -/
  | errorf (text : GoString)
  deriving DecidableEq, Repr

/-! ## `net/http` -/

/-- `http.Header`. -/
abbrev Header := List (GoString × List GoString)

/-- The fields of `http.Request` used here. -/
structure Request where
  Method : GoString
  URL : GoString
  Header : Header
  deriving DecidableEq, Repr

/-- The fields of `http.Response` used here; `Body` is what
`ioutil.ReadAll(resp.Body)` returns. -/
structure Response where
  StatusCode : Int
  Body : Except GoError GoString

/-- What lies outside the package: the outcome of building a request, the
answer of `httpClient` to a request, and the text `encoding/json` gives its
error values. -/
structure World where
  NewRequest : GoString → GoString → Except GoError Request
  Do : Request → Except GoError Response
  jsonErrorText : json.UnmarshalError → GoString

/-- The method `Error()` of an error value. -/
def GoError.Error (w : World) : GoError → GoString
  | .foreign text => text
  | .json e => w.jsonErrorText e
  | .http he => he.Error
  | .errorf text => text

/-- `http.StatusOK`. -/
def StatusOK : Int := 200

/-! ## `engine/gcr.go` -/

/-- The constant `metadataURL`. -/
def metadataURL : GoString :=
  str "http://169.254.169.254/computeMetadata/v1/instance/service-accounts/default/token"

/-- The package variable `metadataHeader`. -/
def metadataHeader : Header := [(str "Metadata-Flavor", [str "Google"])]

/-- Modelled from the spec: the struct `DockerAuth` is declared in another
file of the package; the spec gives the credential as the pair of a username
and a password. -/
structure DockerAuth where
  Username : GoString
  Password : GoString
  deriving DecidableEq, Repr

/-- `readUrl(url, header)`. The log line on a failing status and the
deferred `resp.Body.Close()` act on the process log and on the connection, not
on the values returned. -/
def readUrl (w : World) (url : GoString) (header : Option Header) : Except GoError GoString :=
  match w.NewRequest (str "GET") url with
  | .error err => .error err
  | .ok req =>
    let req := match header with
      | some h => { req with Header := h }
      | none => req
    match w.Do req with
    | .error err => .error err
    | .ok resp =>
      if resp.StatusCode ≠ StatusOK then
        .error (.http { StatusCode := resp.StatusCode, Url := url })
      else
        match resp.Body with
        | .error err => .error err
        | .ok contents => .ok contents

/-- `getCredentialsForGCR()`. -/
def getCredentialsForGCR (w : World) : Except GoError DockerAuth :=
  match readUrl w metadataURL (some metadataHeader) with
  | .error err =>
    .error (.errorf (str "while querying metadata endpoint: " ++ err.Error w))
  | .ok tokenJsonBlob =>
    match json.Unmarshal tokenJsonBlob with
    | .error err =>
      .error (.errorf (str "while parsing json blob " ++ tokenJsonBlob ++ str ": " ++
        (GoError.json err).Error w))
    | .ok parsedBlob =>
      .ok { Username := str "oauth2accesstoken", Password := parsedBlob.AccessToken }

/-! ## Vocabulary of the statements -/

/-- A lower-case hexadecimal digit. -/
def hexDigit (n : Nat) : Nat := if n < 10 then 48 + n else 87 + n

/-- The JSON text of one rune inside a string: the quote and the backslash
take a backslash, control characters are written `\u00XX`, every other rune is
its UTF-8 bytes. -/
def escapeRune (r : Nat) : GoString :=
  if r = 34 then [92, 34]
  else if r = 92 then [92, 92]
  else if r < 32 then [92, 117, 48, 48, hexDigit (r / 16), hexDigit (r % 16)]
  else utf8.EncodeRune r

/-- The bytes between the quotes of the JSON string with value `t`. -/
def escapeString (t : String) : GoString := t.toList.flatMap (fun c => escapeRune c.toNat)

/-- The JSON object `{"access_token": t}`, written without spaces. -/
def tokenJSON (t : String) : GoString :=
  str "\x7b\"access_token\":\"" ++ escapeString t ++ str "\"\x7d"

/-- The body `{"access_token":"abc123"}`. -/
def sampleBody : GoString := str "\x7b\"access_token\":\"abc123\"\x7d"

/-- A world in which the metadata endpoint answers a fixed status and body:
the request is built as asked, and the client returns the response. -/
def answering (status : Int) (body : Except GoError GoString) (errText : GoString) : World where
  NewRequest := fun method url => .ok { Method := method, URL := url, Header := [] }
  Do := fun _ => .ok { StatusCode := status, Body := body }
  jsonErrorText := fun _ => errText

/-- A world in which the client fails with the transport error `e`. -/
def failing (e : GoError) : World where
  NewRequest := fun method url => .ok { Method := method, URL := url, Header := [] }
  Do := fun _ => .error e
  jsonErrorText := fun _ => []

/-- The endpoint answers: for `url` the request is built, and the client
returns the response `resp` for that request with the header set as `readUrl`
sets it. -/
def Responds (w : World) (url : GoString) (header : Option Header) (resp : Response) : Prop :=
  ∃ req, w.NewRequest (str "GET") url = .ok req ∧
    w.Do (match header with
      | some h => { req with Header := h }
      | none => req) = .ok resp

/-- A transport failure: for `url` the request is built, and the client
returns the error `e` instead of a response. -/
def TransportFails (w : World) (url : GoString) (header : Option Header) (e : GoError) : Prop :=
  ∃ req, w.NewRequest (str "GET") url = .ok req ∧
    w.Do (match header with
      | some h => { req with Header := h }
      | none => req) = .error e

/-! ## Auxiliary notions of the proofs -/

namespace filepath

/-- A chunk of plain bytes: no `[`, `?` or backslash. -/
def Literal (chunk : GoString) : Prop := ∀ c ∈ chunk, c ≠ 91 ∧ c ≠ 63 ∧ c ≠ 92

instance (chunk : GoString) : Decidable (Literal chunk) := by
  unfold Literal; infer_instance

/-- What the star loop decides for a final chunk of plain bytes: some
non-empty run of non-separator bytes, followed by exactly the chunk. -/
def starSpec (chunk : GoString) : GoString → Bool
  | [] => false
  | c :: rest => decide (c ≠ Separator) && (decide (rest = chunk) || starSpec chunk rest)

end filepath

namespace utf8

/-- A rune that is a Unicode scalar value. -/
def ValidRune (r : Nat) : Prop := r < 55296 ∨ (57343 < r ∧ r < 1114112)

end utf8

namespace json

/-- The scanning has not reached the bound on its calls, and a value
scanned leaves at most `n` bytes of input. -/
def Scanned.Within {α : Type} (n : Nat) : Scanned α → Prop
  | .value _ rest => rest.length ≤ n
  | .syntaxError => True
  | .outOfFuel => False

/-- A byte the scanner passes inside a string without further ado. -/
def PlainByte (b : Nat) : Prop := 32 ≤ b ∧ b ≠ 34 ∧ b ≠ 92

instance (b : Nat) : Decidable (PlainByte b) := by
  unfold PlainByte; infer_instance

end json

/-! ## Sample inputs of the library routines -/

/-- Cases after the table `matchTests` of the Go test `TestMatch`
(`path/filepath/match_test.go`): pattern, name, and the expected result,
`none` for `ErrBadPattern`. -/
def matchTests : List (String × String × Option Bool) :=
  [("abc", "abc", some true), ("*", "abc", some true), ("*c", "abc", some true),
   ("a*", "a", some true), ("a*", "abc", some true), ("a*", "ab/c", some false),
   ("a*/b", "abc/b", some true), ("a*/b", "a/c/b", some false),
   ("a*b*c*d*e*/f", "axbxcxdxe/f", some true),
   ("a*b*c*d*e*/f", "axbxcxdxexxx/f", some true),
   ("a*b*c*d*e*/f", "axbxcxdxe/xxx/f", some false),
   ("a*b*c*d*e*/f", "axbxcxdxexxx/fff", some false),
   ("a*b?c*x", "abxbbxdbxebxczzx", some true),
   ("a*b?c*x", "abxbbxdbxebxczzy", some false),
   ("ab[c]", "abc", some true), ("ab[b-d]", "abc", some true), ("ab[e-g]", "abc", some false),
   ("ab[^c]", "abc", some false), ("ab[^b-d]", "abc", some false),
   ("ab[^e-g]", "abc", some true), ("a\\*b", "a*b", some true), ("a\\*b", "ab", some false),
   ("a?b", "a☺b", some true), ("a[^a]b", "a☺b", some true), ("a???b", "a☺b", some false),
   ("a[^a][^a][^a]b", "a☺b", some false), ("[a-ζ]*", "α", some true),
   ("*[a-ζ]", "A", some false), ("a?b", "a/b", some false), ("a*b", "a/b", some false),
   ("[\\]a]", "]", some true), ("[\\-]", "-", some true), ("[x\\-]", "x", some true),
   ("[x\\-]", "-", some true), ("[x\\-]", "z", some false), ("[\\-x]", "x", some true),
   ("[\\-x]", "-", some true), ("[\\-x]", "a", some false), ("[]a]", "]", none),
   ("[-]", "-", none), ("[x-]", "x", none), ("[x-]", "-", none), ("[x-]", "z", none),
   ("[-x]", "x", none), ("[-x]", "-", none), ("[-x]", "a", none), ("\\", "a", none),
   ("[a-b-c]", "a", none), ("[", "a", none), ("[^", "a", none), ("[^bc", "a", none),
   ("a[", "a", none), ("a[", "ab", none), ("a[", "x", none), ("a/b[", "x", none),
   ("*x", "xxx", some true)]

/-- Does the model of `Match` give the expected result of a case. -/
def matchTestPasses (t : String × String × Option Bool) : Bool :=
  match filepath.Match (str t.1) (str t.2.1), t.2.2 with
  | .ok b, some b1 => b == b1
  | .error _, none => true
  | _, _ => false

/-- Sample bodies with what `json.Unmarshal` makes of them for a `tokenBlob`:
the token stored, or `none` for an error. -/
def unmarshalTests : List (String × Option String) :=
  [("\x7b\"access_token\":\"abc123\"\x7d", some "abc123"),
   ("\x7b\"access_token\":\"ya29.c.Kp\",\"expires_in\":3599,\"token_type\":\"Bearer\"\x7d",
     some "ya29.c.Kp"),
   (" \x7b \"access_token\" : \"a\\\"b\\u00e9\\n\" , \"x\" : [1, \x7b\"y\":null\x7d, -0.5e+10] \x7d ",
     some "a\"bé\n"),
   ("\x7b\"Access_Token\":\"x\"\x7d", some "x"),
   ("\x7b\"access_token\":\"a\",\"access_token\":\"b\"\x7d", some "b"),
   ("\x7b\"access_token\":null\x7d", some ""),
   ("\x7b\"token\":\"x\"\x7d", some ""),
   ("null", some ""),
   ("\x7b\"access_token\":5\x7d", none),
   ("[\"abc123\"]", none),
   ("not-json", none),
   ("", none),
   ("\x7b\"access_token\":\"abc123\"", none),
   ("\x7b\"access_token\":\"abc123\",\x7d", none),
   ("\x7b\"access_token\":\"abc123\"\x7d x", none),
   ("\x7b\"a\":01\x7d", none)]

/-- Does the model of `Unmarshal` give the expected result of a sample. -/
def unmarshalTestPasses (t : String × Option String) : Bool :=
  match json.Unmarshal (str t.1), t.2 with
  | .ok blob, some token => blob.AccessToken == str token
  | .error _, none => true
  | _, _ => false

/-! # Proofs -/

/-! ## UTF-8: decoding an encoded rune -/

namespace utf8

theorem decode_size_pos (c : Nat) (s : GoString) : 1 ≤ (DecodeRuneInString (c :: s)).2 := by
  unfold DecodeRuneInString
  dsimp only
  repeat' split
  all_goals simp

theorem decode_encode2 (r : Nat) (rest : GoString) (h128 : 128 ≤ r) (h : r < 2048) :
    DecodeRuneInString ((192 + r / 64) :: (128 + r % 64) :: rest) = (r, 2) := by
  have h0 : ¬ (192 + r / 64 < 128) := by omega
  have h1 : 194 ≤ 192 + r / 64 ∧ 192 + r / 64 ≤ 223 := by omega
  simp only [DecodeRuneInString, first, h0, h1, if_false, if_true, and_self, List.length_cons]
  have h2 : ¬ ((rest.length + 1 + 1) < 2) := by omega
  have h3 : ¬ (128 + r % 64 < 128 ∨ 191 < 128 + r % 64) := by omega
  simp only [h2, h3, if_false, le_refl, if_true, Prod.mk.injEq, and_true]
  omega

theorem first3 (r : Nat) (hlo : 2048 ≤ r) (hhi : r < 65536) (hv : r < 55296 ∨ 57343 < r) :
    ∃ lo hi, first (224 + r / 4096) = some (3, lo, hi) ∧
      lo ≤ 128 + r / 64 % 64 ∧ 128 + r / 64 % 64 ≤ hi := by
  unfold first
  split_ifs with a b c d e f g i
  · omega
  · exact ⟨160, 191, rfl, by omega, by omega⟩
  · exact ⟨128, 191, rfl, by omega, by omega⟩
  · exact ⟨128, 159, rfl, by omega, by omega⟩
  · exact ⟨128, 191, rfl, by omega, by omega⟩
  all_goals omega

theorem first4 (r : Nat) (hlo : 65536 ≤ r) (hhi : r < 1114112) :
    ∃ lo hi, first (240 + r / 262144) = some (4, lo, hi) ∧
      lo ≤ 128 + r / 4096 % 64 ∧ 128 + r / 4096 % 64 ≤ hi := by
  unfold first
  split_ifs with a b c d e f g i
  · omega
  · omega
  · omega
  · omega
  · omega
  · exact ⟨144, 191, rfl, by omega, by omega⟩
  · exact ⟨128, 191, rfl, by omega, by omega⟩
  · exact ⟨128, 143, rfl, by omega, by omega⟩
  · omega

theorem decode_encode3 (r : Nat) (rest : GoString) (hlo : 2048 ≤ r) (hhi : r < 65536)
    (hv : r < 55296 ∨ 57343 < r) :
    DecodeRuneInString ((224 + r / 4096) :: (128 + r / 64 % 64) :: (128 + r % 64) :: rest)
      = (r, 3) := by
  obtain ⟨lo, hi, hf, h1, h2⟩ := first3 r hlo hhi hv
  have h0 : ¬ (224 + r / 4096 < 128) := by omega
  simp only [DecodeRuneInString, hf, h0, if_false, List.length_cons]
  have h3 : ¬ ((rest.length + 1 + 1 + 1) < 3) := by omega
  have h4 : ¬ (128 + r / 64 % 64 < lo ∨ hi < 128 + r / 64 % 64) := by omega
  have h5 : ¬ (128 + r % 64 < 128 ∨ 191 < 128 + r % 64) := by omega
  have h6 : ¬ (3 ≤ 2) := by omega
  simp only [h3, h4, h5, h6, if_false, le_refl, if_true, Prod.mk.injEq, and_true]
  omega

theorem decode_encode4 (r : Nat) (rest : GoString) (hlo : 65536 ≤ r) (hhi : r < 1114112) :
    DecodeRuneInString
      ((240 + r / 262144) :: (128 + r / 4096 % 64) :: (128 + r / 64 % 64) :: (128 + r % 64) :: rest)
      = (r, 4) := by
  obtain ⟨lo, hi, hf, h1, h2⟩ := first4 r hlo hhi
  have h0 : ¬ (240 + r / 262144 < 128) := by omega
  simp only [DecodeRuneInString, hf, h0, if_false, List.length_cons]
  have h3 : ¬ ((rest.length + 1 + 1 + 1 + 1) < 4) := by omega
  have h4 : ¬ (128 + r / 4096 % 64 < lo ∨ hi < 128 + r / 4096 % 64) := by omega
  have h5 : ¬ (128 + r / 64 % 64 < 128 ∨ 191 < 128 + r / 64 % 64) := by omega
  have h7 : ¬ (128 + r % 64 < 128 ∨ 191 < 128 + r % 64) := by omega
  have h6 : ¬ (4 ≤ 2) := by omega
  have h8 : ¬ (4 ≤ 3) := by omega
  simp only [h3, h4, h5, h6, h7, h8, if_false, Prod.mk.injEq, and_true]
  omega

theorem decode_encode (r : Nat) (rest : GoString) (h128 : 128 ≤ r) (hv : ValidRune r) :
    DecodeRuneInString (EncodeRune r ++ rest) = (r, (EncodeRune r).length) := by
  unfold ValidRune at hv
  unfold EncodeRune
  by_cases h1 : r < 128
  · omega
  by_cases h2 : r < 2048
  · simp only [h1, h2, if_false, if_true, List.cons_append, List.nil_append, List.length_cons,
      List.length_nil]
    exact decode_encode2 r rest h128 h2
  have h3 : ¬ (1114111 < r ∨ (55296 ≤ r ∧ r ≤ 57343)) := by omega
  by_cases h4 : r < 65536
  · simp only [h1, h2, h3, h4, if_false, if_true, List.cons_append, List.nil_append,
      List.length_cons, List.length_nil]
    exact decode_encode3 r rest (by omega) h4 (by omega)
  · simp only [h1, h2, h3, h4, if_false, List.cons_append, List.nil_append,
      List.length_cons, List.length_nil]
    exact decode_encode4 r rest (by omega) (by omega)

end utf8

/-! ## The bounds on the rounds of the loops of `filepath.Match` are never reached -/

namespace filepath

theorem getEsc_length (chunk nchunk : GoString) (r : Nat) (h : getEsc chunk = .ok (r, nchunk)) :
    nchunk.length < chunk.length := by
  cases chunk with
  | nil => simp [getEsc] at h
  | cons c rest =>
    unfold getEsc at h
    dsimp only at h
    by_cases h1 : c = 45 ∨ c = 93
    · simp [h1] at h
    · by_cases hc : c = 92
      · cases rest with
        | nil => simp [hc] at h
        | cons d rest1 =>
          simp only [h1, hc, if_false, if_true, reduceCtorEq, and_false] at h
          split_ifs at h
          simp only [Except.ok.injEq, Prod.mk.injEq] at h
          obtain ⟨_, rfl⟩ := h
          have := utf8.decode_size_pos d rest1
          simp only [List.length_drop, List.length_cons]
          omega
      · simp only [h1, hc, if_false, false_and] at h
        split_ifs at h
        simp only [Except.ok.injEq, Prod.mk.injEq] at h
        obtain ⟨_, rfl⟩ := h
        have := utf8.decode_size_pos c rest
        simp only [List.length_drop, List.length_cons]
        omega

theorem classLoop_fuel :
    ∀ (fuel : Nat) (chunk : GoString) (r : Nat) (matched : Bool) (nrange : Nat),
      chunk.length < fuel →
      ∃ res, classLoop fuel chunk r matched nrange = some res ∧
        ∀ chunk1 m, res = .ok (chunk1, m) → chunk1.length < chunk.length := by
  intro fuel
  induction fuel with
  | zero => intro chunk r matched nrange h; omega
  | succ f ih =>
    intro chunk r matched nrange h
    unfold classLoop
    split_ifs with h1
    · refine ⟨_, rfl, ?_⟩
      intro chunk1 m e
      simp only [Except.ok.injEq, Prod.mk.injEq] at e
      obtain ⟨rfl, _⟩ := e
      cases chunk with
      | nil => simp at h1
      | cons c t => simp
    · cases hg : getEsc chunk with
      | error e => exact ⟨_, rfl, fun _ _ e => by cases e⟩
      | ok p =>
        obtain ⟨lo, chunk1⟩ := p
        have hl1 := getEsc_length _ _ _ hg
        simp only
        by_cases hd : chunk1.head? = some 45
        · simp only [hd, if_true]
          cases hg2 : getEsc chunk1.tail with
          | error e => exact ⟨_, rfl, fun _ _ e => by cases e⟩
          | ok q =>
            obtain ⟨hi, chunk2⟩ := q
            have hl2 := getEsc_length _ _ _ hg2
            have hl3 : chunk1.tail.length ≤ chunk1.length := by simp
            simp only
            obtain ⟨res, hres, hlen⟩ := ih chunk2 r
              (matched || (decide (lo ≤ r) && decide (r ≤ hi))) (nrange + 1) (by omega)
            exact ⟨res, hres, fun c1 m e => by have := hlen c1 m e; omega⟩
        · simp only [hd, if_false]
          obtain ⟨res, hres, hlen⟩ := ih chunk1 r
            (matched || (decide (lo ≤ r) && decide (r ≤ lo))) (nrange + 1) (by omega)
          exact ⟨res, hres, fun c1 m e => by have := hlen c1 m e; omega⟩

theorem matchChunkLoop_fuel :
    ∀ (fuel : Nat) (chunk s : GoString) (failed : Bool), chunk.length < fuel →
      ∃ res, matchChunkLoop fuel chunk s failed = some res := by
  intro fuel
  induction fuel with
  | zero => intro chunk s failed h; omega
  | succ f ih =>
    intro chunk s failed h
    unfold matchChunkLoop
    cases chunk with
    | nil => exact ⟨_, rfl⟩
    | cons c chunk1 =>
      simp only [List.length_cons] at h
      dsimp only
      by_cases h1 : c = 91
      · rw [if_pos h1]
        generalize hc2 : (if decide (chunk1.head? = some 94) = true then chunk1.tail else chunk1)
          = chunk2
        have hl : chunk2.length ≤ chunk1.length := by
          rw [← hc2]; split_ifs <;> simp
        generalize (if (failed || decide (s = [])) = true then 0
          else (utf8.DecodeRuneInString s).1) = r
        obtain ⟨res, hres, hlen⟩ := classLoop_fuel f chunk2 r false 0 (by omega)
        rw [hres]
        cases res with
        | error e => exact ⟨_, rfl⟩
        | ok p =>
          obtain ⟨chunk3, m⟩ := p
          have := hlen chunk3 m rfl
          exact ih _ _ _ (by omega)
      · rw [if_neg h1]
        by_cases h2 : c = 63
        · rw [if_pos h2]
          split_ifs
          · exact ih _ _ _ (by omega)
          · exact ih _ _ _ (by omega)
        · rw [if_neg h2]
          by_cases h3 : c = 92
          · rw [if_pos h3]
            cases chunk1 with
            | nil => exact ⟨_, rfl⟩
            | cons b chunk2 =>
              simp only [List.length_cons] at h
              dsimp only
              split_ifs
              · exact ih _ _ _ (by omega)
              · exact ih _ _ _ (by omega)
          · rw [if_neg h3]
            split_ifs
            · exact ih _ _ _ (by omega)
            · exact ih _ _ _ (by omega)

theorem matchChunk_eq (chunk s : GoString) :
    matchChunkLoop (chunk.length + 1) chunk s false = some (matchChunk chunk s) := by
  obtain ⟨res, h⟩ := matchChunkLoop_fuel (chunk.length + 1) chunk s false (Nat.lt_succ_self _)
  simp [matchChunk, h]

theorem scanSplit_length :
    ∀ (n : Nat) (p : GoString) (inrange : Bool), p.length ≤ n →
      (scanSplit inrange p).1.length + (scanSplit inrange p).2.length = p.length := by
  intro n
  induction n using Nat.strong_induction_on with
  | _ n ih =>
    intro p inrange hn
    cases p with
    | nil => simp [scanSplit]
    | cons c p =>
      simp only [List.length_cons] at hn
      unfold scanSplit
      split_ifs with h1 h2 h3 h4 h5
      · cases p with
        | nil => simp
        | cons d q =>
          simp only [List.length_cons] at hn
          have := ih q.length (by omega) q inrange le_rfl
          simp only [List.length_cons]
          omega
      · have := ih p.length (by omega) p true le_rfl
        simp only [List.length_cons]
        omega
      · have := ih p.length (by omega) p false le_rfl
        simp only [List.length_cons]
        omega
      · have := ih p.length (by omega) p inrange le_rfl
        simp only [List.length_cons]
        omega
      · simp
      · have := ih p.length (by omega) p inrange le_rfl
        simp only [List.length_cons]
        omega

theorem scanChunk_length (p : GoString) (hp : p ≠ []) :
    (scanChunk p).2.2.length < p.length := by
  unfold scanChunk
  dsimp only
  have hdw : (p.dropWhile (fun c => decide (c = 42))).length ≤ p.length :=
    (List.dropWhile_sublist _).length_le
  have hs := scanSplit_length _ (p.dropWhile (fun c => decide (c = 42))) false le_rfl
  obtain ⟨c, t, rfl⟩ := List.exists_cons_of_ne_nil hp
  by_cases hc : c = 42
  · have : ((c :: t).dropWhile (fun c => decide (c = 42))).length ≤ t.length := by
      simp only [List.dropWhile_cons, hc, decide_True, if_true]
      exact (List.dropWhile_sublist _).length_le
    simp only [List.length_cons]
    omega
  · have hd : (c :: t).dropWhile (fun c => decide (c = 42)) = c :: t := by
      simp [List.dropWhile_cons, hc]
    rw [hd] at hs ⊢
    have h1 : 1 ≤ (scanSplit false (c :: t)).1.length := by
      unfold scanSplit
      split_ifs with a b d
      · cases t <;> simp
      · simp
      · simp
      · simp
    omega

theorem matchLoop_fuel :
    ∀ (fuel : Nat) (pattern name : GoString), pattern.length < fuel →
      ∃ res, matchLoop fuel pattern name = some res := by
  intro fuel
  induction fuel with
  | zero => intro pattern name h; omega
  | succ f ih =>
    intro pattern name h
    unfold matchLoop
    by_cases hp : pattern = []
    · rw [if_pos hp]; exact ⟨_, rfl⟩
    · rw [if_neg hp]
      have hlen := scanChunk_length pattern hp
      dsimp only
      by_cases h1 : (scanChunk pattern).1 = true ∧ (scanChunk pattern).2.1 = []
      · rw [if_pos h1]; exact ⟨_, rfl⟩
      · rw [if_neg h1]
        cases matchChunk (scanChunk pattern).2.1 name with
        | error e => exact ⟨_, rfl⟩
        | ok r =>
          dsimp only
          split
          · exact ih _ _ (by omega)
          · by_cases h2 : (scanChunk pattern).1 = true
            · rw [if_pos h2]
              cases starLoop (scanChunk pattern).2.1
                  (decide ((scanChunk pattern).2.2 = [])) name with
              | error e => exact ⟨_, rfl⟩
              | ok o =>
                cases o with
                | none => exact ⟨_, rfl⟩
                | some t => exact ih _ _ (by omega)
            · rw [if_neg h2]; exact ⟨_, rfl⟩

theorem Match_eq (pattern name : GoString) :
    matchLoop (pattern.length + 1) pattern name = some (Match pattern name) := by
  obtain ⟨res, h⟩ := matchLoop_fuel (pattern.length + 1) pattern name (Nat.lt_succ_self _)
  simp [Match, h]

end filepath

/-! ## The bounds on the loops of the JSON decoder are never reached -/

namespace json

theorem needsNoUnquote_fuel :
    ∀ (fuel : Nat) (s : GoString), s.length < fuel → ∃ b, needsNoUnquote fuel s = some b := by
  intro fuel
  induction fuel with
  | zero => intro s h; omega
  | succ f ih =>
    intro s h
    cases s with
    | nil => exact ⟨_, rfl⟩
    | cons c s =>
      simp only [List.length_cons] at h
      have := utf8.decode_size_pos c s
      unfold needsNoUnquote
      dsimp only
      split_ifs
      · exact ⟨_, rfl⟩
      · exact ih _ (by omega)
      · exact ⟨_, rfl⟩
      · exact ih _ (by simp only [List.length_drop, List.length_cons]; omega)

theorem emit_isSome (bs : GoString) (r : Option (Option GoString)) (h : ∃ x, r = some x) :
    ∃ x, emit bs r = some x := by
  obtain ⟨x, rfl⟩ := h
  exact ⟨_, rfl⟩

theorem unquoteLoop_fuel :
    ∀ (fuel : Nat) (s : GoString), s.length < fuel → ∃ r, unquoteLoop fuel s = some r := by
  intro fuel
  induction fuel with
  | zero => intro s h; omega
  | succ f ih =>
    intro s h
    cases s with
    | nil => exact ⟨_, rfl⟩
    | cons c s =>
      simp only [List.length_cons] at h
      have hrec : ∀ (bs t : GoString), t.length ≤ s.length →
          ∃ x, emit bs (unquoteLoop f t) = some x :=
        fun bs t ht => emit_isSome _ _ (ih t (by omega))
      have hdrop : ∀ n, (List.drop n (c :: s)).length ≤ s.length ∨ n = 0 := by
        intro n
        cases n with
        | zero => right; rfl
        | succ k => left; simp
      unfold unquoteLoop
      by_cases h1 : c = 92
      · rw [if_pos h1]
        cases s with
        | nil => exact ⟨_, rfl⟩
        | cons e s1 =>
          have hs1 : s1.length ≤ (e :: s1).length := by simp
          dsimp only
          by_cases c1 : e = 34 ∨ e = 92 ∨ e = 47 ∨ e = 39
          · rw [if_pos c1]; exact hrec _ _ hs1
          rw [if_neg c1]
          by_cases c2 : e = 98
          · rw [if_pos c2]; exact hrec _ _ hs1
          rw [if_neg c2]
          by_cases c3 : e = 102
          · rw [if_pos c3]; exact hrec _ _ hs1
          rw [if_neg c3]
          by_cases c4 : e = 110
          · rw [if_pos c4]; exact hrec _ _ hs1
          rw [if_neg c4]
          by_cases c5 : e = 114
          · rw [if_pos c5]; exact hrec _ _ hs1
          rw [if_neg c5]
          by_cases c6 : e = 116
          · rw [if_pos c6]; exact hrec _ _ hs1
          rw [if_neg c6]
          by_cases c7 : e = 117
          · rw [if_pos c7]
            cases getu4 (c :: e :: s1) with
            | none => exact ⟨_, rfl⟩
            | some rr =>
              have hd6 : (List.drop 6 (c :: e :: s1)).length ≤ (e :: s1).length := by
                simp only [List.length_drop, List.length_cons]; omega
              have hd12 : (List.drop 6 (List.drop 6 (c :: e :: s1))).length ≤ (e :: s1).length := by
                simp only [List.length_drop, List.length_cons]; omega
              dsimp only
              by_cases c8 : 55296 ≤ rr ∧ rr < 57344
              · rw [if_pos c8]
                split_ifs
                · exact hrec _ _ hd12
                · exact hrec _ _ hd6
              · rw [if_neg c8]; exact hrec _ _ hd6
          · rw [if_neg c7]; exact ⟨_, rfl⟩
      · rw [if_neg h1]
        by_cases h2 : c = 34 ∨ c < 32
        · rw [if_pos h2]; exact ⟨_, rfl⟩
        rw [if_neg h2]
        by_cases h3 : c < 128
        · rw [if_pos h3]; exact hrec _ _ le_rfl
        rw [if_neg h3]
        have := utf8.decode_size_pos c s
        exact hrec _ _ (by simp only [List.length_drop, List.length_cons]; omega)

theorem equalFold_fuel :
    ∀ (fuel : Nat) (name key : GoString), key.length < fuel →
      ∃ b, equalFold fuel name key = some b := by
  intro fuel
  induction fuel with
  | zero => intro name key h; omega
  | succ f ih =>
    intro name key h
    cases name with
    | nil => exact ⟨_, rfl⟩
    | cons n name =>
      cases key with
      | nil => exact ⟨_, rfl⟩
      | cons c key =>
        simp only [List.length_cons] at h
        have := utf8.decode_size_pos c key
        unfold equalFold
        dsimp only
        by_cases h1 : c < 128
        · rw [if_pos h1]
          split_ifs
          all_goals first
            | exact ⟨_, rfl⟩
            | exact ih _ _ (by omega)
        · rw [if_neg h1]
          generalize (if (utf8.DecodeRuneInString (c :: key)).1 = 383 then some 83
            else if (utf8.DecodeRuneInString (c :: key)).1 = 8490 then some 75 else none) = folded
          split_ifs
          · exact ih _ _ (by simp only [List.length_drop, List.length_cons]; omega)
          · exact ⟨_, rfl⟩

theorem skipSpace_length (s : GoString) : (skipSpace s).length ≤ s.length :=
  (List.dropWhile_sublist _).length_le

theorem skipDigits_length (s : GoString) : (skipDigits s).length ≤ s.length :=
  (List.dropWhile_sublist _).length_le

theorem scanStringFrom_length :
    ∀ (s : GoString) (st : StringState) (raw rest : GoString),
      scanStringFrom st s = some (raw, rest) → rest.length < s.length := by
  intro s
  induction s with
  | nil => intro st raw rest h; cases st <;> simp [scanStringFrom] at h
  | cons c s ih =>
    intro st raw rest h
    have key : ∀ (st2 : StringState) (f : GoString × GoString → GoString × GoString),
        (∀ p, (f p).2 = p.2) →
        (scanStringFrom st2 s).map f = some (raw, rest) → rest.length < (c :: s).length := by
      intro st2 f hf hm
      cases hs : scanStringFrom st2 s with
      | none => rw [hs] at hm; simp at hm
      | some p =>
        rw [hs] at hm
        simp only [Option.map_some', Option.some.injEq] at hm
        have h2 := hf p
        rw [hm] at h2
        have := ih st2 p.1 p.2 (by rw [hs])
        simp only [List.length_cons]
        simp only at h2
        rw [h2]
        omega
    cases st <;> unfold scanStringFrom at h <;> split_ifs at h
    all_goals first
      | (simp only [Option.some.injEq, Prod.mk.injEq] at h; obtain ⟨_, rfl⟩ := h; simp)
      | (refine key _ _ ?_ h; intro p; rfl)

theorem scanInt_length (s rest : GoString) (h : scanInt s = some rest) :
    rest.length ≤ s.length := by
  unfold scanInt at h
  have hl : (skipMinus s).length ≤ s.length := by
    unfold skipMinus; split <;> simp
  cases hs1 : skipMinus s with
  | nil => rw [hs1] at h; cases h
  | cons c t =>
    rw [hs1] at h hl
    dsimp only at h
    simp only [List.length_cons] at hl
    have := skipDigits_length t
    split_ifs at h <;> simp only [Option.some.injEq] at h <;> subst h <;> omega

theorem scanFrac_length (s rest : GoString) (h : scanFrac s = some rest) :
    rest.length ≤ s.length := by
  cases s with
  | nil => simp only [scanFrac, Option.some.injEq] at h; subst h; simp
  | cons c t =>
    unfold scanFrac at h
    dsimp only at h
    by_cases hc : c = 46
    · rw [if_pos hc] at h
      cases t with
      | nil => simp at h
      | cons d u =>
        have := skipDigits_length u
        dsimp only at h
        split_ifs at h
        simp only [Option.some.injEq] at h; subst h
        simp only [List.length_cons]; omega
    · rw [if_neg hc] at h
      simp only [Option.some.injEq] at h; subst h; simp

theorem scanExp_length (s rest : GoString) (h : scanExp s = some rest) :
    rest.length ≤ s.length := by
  cases s with
  | nil => simp only [scanExp, Option.some.injEq] at h; subst h; simp
  | cons c t =>
    unfold scanExp at h
    dsimp only at h
    by_cases hc : c = 101 ∨ c = 69
    · rw [if_pos hc] at h
      have hl : (skipSign t).length ≤ t.length := by
        unfold skipSign; split <;> simp
      cases ht1 : skipSign t with
      | nil => rw [ht1] at h; cases h
      | cons d u =>
        rw [ht1] at h hl
        dsimp only at h
        have := skipDigits_length u
        simp only [List.length_cons] at hl
        split_ifs at h
        simp only [Option.some.injEq] at h; subst h
        simp only [List.length_cons]; omega
    · rw [if_neg hc] at h
      simp only [Option.some.injEq] at h; subst h; simp

theorem scanNumber_length (s lit rest : GoString) (h : scanNumber s = some (lit, rest)) :
    rest.length ≤ s.length := by
  unfold scanNumber at h
  cases h1 : scanInt s with
  | none => simp [h1] at h
  | some a =>
    cases h2 : scanFrac a with
    | none => simp [h1, h2] at h
    | some b =>
      cases h3 : scanExp b with
      | none => simp [h1, h2, h3] at h
      | some r =>
        simp only [h1, h2, h3, Option.some_bind, Option.some.injEq, Prod.mk.injEq] at h
        obtain ⟨_, rfl⟩ := h
        have := scanInt_length _ _ h1
        have := scanFrac_length _ _ h2
        have := scanExp_length _ _ h3
        omega

end json

namespace json

theorem Within_map {α β : Type} (f : α → β) (n : Nat) (x : Scanned α)
    (h : x.Within n) : (x.map f).Within n := by
  cases x <;> exact h

theorem Within_mono {α : Type} {n m : Nat} (x : Scanned α) (hnm : n ≤ m)
    (h : x.Within n) : x.Within m := by
  cases x with
  | value a rest => exact Nat.le_trans h hnm
  | syntaxError => trivial
  | outOfFuel => exact h

theorem skipSpace_cons_length (s t : GoString) (c : Nat) (h : skipSpace s = c :: t) :
    t.length + 1 ≤ s.length := by
  have := skipSpace_length s
  rw [h] at this
  simpa using this

theorem parse_fuel_step (f : Nat)
    (ihV : ∀ d s, 2 * s.length + 1 ≤ f → (parseValue f d s).Within s.length)
    (ihM : ∀ d s, 2 * s.length + 1 ≤ f → (parseMembers f d s).Within s.length)
    (ihE : ∀ d s, 2 * s.length + 2 ≤ f → (parseElements f d s).Within s.length) :
    (∀ d s, 2 * s.length + 1 ≤ f + 1 → (parseValue (f + 1) d s).Within s.length) ∧
    (∀ d s, 2 * s.length + 1 ≤ f + 1 → (parseMembers (f + 1) d s).Within s.length) ∧
    (∀ d s, 2 * s.length + 2 ≤ f + 1 → (parseElements (f + 1) d s).Within s.length) := by
  refine ⟨?_, ?_, ?_⟩
  · intro d s hf
    unfold parseValue
    cases hsp : skipSpace s with
    | nil => trivial
    | cons c t =>
      have hl := skipSpace_cons_length s t c hsp
      dsimp only
      by_cases c1 : c = 123
      · rw [if_pos c1]
        split_ifs
        · trivial
        · split
          · rename_i s1 heq
            have := skipSpace_cons_length t s1 125 heq
            show s1.length ≤ s.length
            omega
          · exact Within_map _ _ _ (Within_mono _ (by omega) (ihM (d + 1) t (by omega)))
      rw [if_neg c1]
      by_cases c2 : c = 91
      · rw [if_pos c2]
        split_ifs
        · trivial
        · split
          · rename_i s1 heq
            have := skipSpace_cons_length t s1 93 heq
            show s1.length ≤ s.length
            omega
          · exact Within_map _ _ _ (Within_mono _ (by omega) (ihE (d + 1) t (by omega)))
      rw [if_neg c2]
      by_cases c3 : c = 34
      · rw [if_pos c3]
        cases hss : scanString t with
        | none => trivial
        | some p =>
          obtain ⟨raw, s1⟩ := p
          have := scanStringFrom_length t _ raw s1 hss
          dsimp only
          cases unquote raw with
          | none => trivial
          | some x =>
            show s1.length ≤ s.length
            omega
      rw [if_neg c3]
      by_cases c4 : c = 45 ∨ (48 ≤ c ∧ c ≤ 57)
      · rw [if_pos c4]
        cases hn : scanNumber (c :: t) with
        | none => trivial
        | some p =>
          obtain ⟨lit, s1⟩ := p
          have := scanNumber_length _ _ _ hn
          simp only [List.length_cons] at this
          show s1.length ≤ s.length
          omega
      rw [if_neg c4]
      by_cases c5 : c = 116
      · rw [if_pos c5]
        split
        · rename_i s1
          show s1.length ≤ s.length
          simp only [List.length_cons] at hl
          omega
        · trivial
      rw [if_neg c5]
      by_cases c6 : c = 102
      · rw [if_pos c6]
        split
        · rename_i s1
          show s1.length ≤ s.length
          simp only [List.length_cons] at hl
          omega
        · trivial
      rw [if_neg c6]
      by_cases c7 : c = 110
      · rw [if_pos c7]
        split
        · rename_i s1
          show s1.length ≤ s.length
          simp only [List.length_cons] at hl
          omega
        · trivial
      rw [if_neg c7]
      trivial
  · intro d s hf
    unfold parseMembers
    split
    · rename_i t hsp
      have hl := skipSpace_cons_length s t 34 hsp
      cases hss : scanString t with
      | none => trivial
      | some p =>
        obtain ⟨raw, s1⟩ := p
        have hl1 := scanStringFrom_length t _ raw s1 hss
        dsimp only
        split
        · rename_i key s2 hu hsp2
          have hl2 := skipSpace_cons_length s1 s2 58 hsp2
          have hv := ihV d s2 (by omega)
          cases hpv : parseValue f d s2 with
          | syntaxError => trivial
          | outOfFuel => rw [hpv] at hv; exact hv
          | value v s3 =>
            rw [hpv] at hv
            have hl3 : s3.length ≤ s2.length := hv
            dsimp only
            split
            · rename_i s4 hsp4
              have hl4 := skipSpace_cons_length s3 s4 44 hsp4
              exact Within_map _ _ _ (Within_mono _ (by omega) (ihM d s4 (by omega)))
            · rename_i s4 hsp4
              have hl4 := skipSpace_cons_length s3 s4 125 hsp4
              show s4.length ≤ s.length
              omega
            · trivial
        · trivial
    · trivial
  · intro d s hf
    unfold parseElements
    have hv := ihV d s (by omega)
    cases hpv : parseValue f d s with
    | syntaxError => trivial
    | outOfFuel => rw [hpv] at hv; exact hv
    | value v s1 =>
      rw [hpv] at hv
      have hl1 : s1.length ≤ s.length := hv
      dsimp only
      split
      · rename_i s2 hsp2
        have hl2 := skipSpace_cons_length s1 s2 44 hsp2
        exact Within_map _ _ _ (Within_mono _ (by omega) (ihE d s2 (by omega)))
      · rename_i s2 hsp2
        have hl2 := skipSpace_cons_length s1 s2 93 hsp2
        show s2.length ≤ s.length
        omega
      · trivial

theorem parse_fuel (fuel : Nat) :
    (∀ d s, 2 * s.length + 1 ≤ fuel → (parseValue fuel d s).Within s.length) ∧
    (∀ d s, 2 * s.length + 1 ≤ fuel → (parseMembers fuel d s).Within s.length) ∧
    (∀ d s, 2 * s.length + 2 ≤ fuel → (parseElements fuel d s).Within s.length) := by
  induction fuel with
  | zero =>
    refine ⟨?_, ?_, ?_⟩ <;> intro d s h <;> omega
  | succ f ih => exact parse_fuel_step f ih.1 ih.2.1 ih.2.2

/-- The scanner started by `parse` never reaches the bound on its calls. -/
theorem parseValue_fuel (data : GoString) :
    parseValue (2 * data.length + 2) 0 data ≠ .outOfFuel := by
  have h := (parse_fuel (2 * data.length + 2)).1 0 data (by omega)
  intro e
  rw [e] at h
  exact h

end json

/-! ## The models on sample inputs -/

/-- The model of `filepath.Match` agrees with the table of cases of the Go
test `TestMatch`, and the model of `json.Unmarshal` decodes sample bodies as
Go does. -/
theorem models_on_samples :
    matchTests.all matchTestPasses = true ∧
    unmarshalTests.all unmarshalTestPasses = true := by
  constructor <;> rfl
/-! ## Lemmas on `filepath.Match` for patterns of literal bytes and stars -/

namespace filepath

theorem matchChunkLoop_literal (chunk : GoString) (hlit : Literal chunk) :
    ∀ (fuel : Nat) (s : GoString) (failed : Bool), chunk.length < fuel →
      matchChunkLoop fuel chunk s failed =
        some (.ok (if failed = true then none
             else if chunk <+: s then some (s.drop chunk.length) else none)) := by
  induction chunk with
  | nil =>
    intro fuel s failed hf
    obtain ⟨f, rfl⟩ : ∃ f, fuel = f + 1 := ⟨fuel - 1, by simp at hf; omega⟩
    cases failed <;> simp [matchChunkLoop]
  | cons c ch ih =>
    intro fuel s failed hf
    obtain ⟨f, rfl⟩ : ∃ f, fuel = f + 1 := ⟨fuel - 1, by omega⟩
    have hc := hlit c (List.mem_cons_self _ _)
    have hch : Literal ch := fun x hx => hlit x (List.mem_cons_of_mem _ hx)
    have hf2 : ch.length < f := by simp at hf; omega
    simp only [matchChunkLoop, hc.1, hc.2.1, hc.2.2, if_false]
    cases failed with
    | true => simp [ih hch f _ true hf2]
    | false =>
      cases s with
      | nil => simp [ih hch f _ true hf2]
      | cons a s1 =>
        simp only [Bool.false_or, reduceCtorEq, decide_False, Bool.false_eq_true, if_false,
          List.tail_cons, List.head?_cons]
        rw [ih hch f _ _ hf2]
        by_cases hac : a = c
        · subst hac
          simp [List.cons_prefix_cons]
        · have : ¬ (c :: ch <+: a :: s1) := by
            rw [List.cons_prefix_cons]; exact fun h => hac h.1.symm
          simp [hac, this]

theorem matchChunk_literal (chunk s : GoString) (hlit : Literal chunk) :
    matchChunk chunk s =
      .ok (if chunk <+: s then some (s.drop chunk.length) else none) := by
  unfold matchChunk
  rw [matchChunkLoop_literal chunk hlit _ _ _ (Nat.lt_succ_self _)]
  simp


theorem prefix_drop_nil_iff (chunk s : GoString) :
    (chunk <+: s ∧ s.drop chunk.length = []) ↔ s = chunk := by
  constructor
  · rintro ⟨⟨t, rfl⟩, h⟩
    simp at h
    simp [h]
  · rintro rfl
    simp

theorem starLoop_literal (chunk : GoString) (hlit : Literal chunk) (name : GoString) :
    starLoop chunk true name = .ok (if starSpec chunk name = true then some [] else none) := by
  induction name with
  | nil => simp [starLoop, starSpec]
  | cons c rest ih =>
    by_cases hc : c = Separator
    · simp [starLoop, starSpec, hc]
    · simp only [starLoop, starSpec, hc, if_false, matchChunk_literal chunk rest hlit]
      by_cases hp : chunk <+: rest
      · by_cases hd : rest.drop chunk.length = []
        · have : rest = chunk := (prefix_drop_nil_iff chunk rest).1 ⟨hp, hd⟩
          simp [hp, hd, this, hc]
        · have : rest ≠ chunk := fun h => hd ((prefix_drop_nil_iff chunk rest).2 h).2
          simp [hp, hd, this, ih, hc]
      · have : rest ≠ chunk := fun h => hp ((prefix_drop_nil_iff chunk rest).2 h).1
        simp [hp, this, ih, hc]

theorem starSpec_iff (chunk name : GoString) :
    starSpec chunk name = true ↔
      ∃ s, s ≠ [] ∧ Separator ∉ s ∧ name = s ++ chunk := by
  induction name with
  | nil =>
    simp only [starSpec, Bool.false_eq_true, false_iff]
    rintro ⟨s, hne, _, h⟩
    exact hne (List.append_eq_nil.1 h.symm).1
  | cons c rest ih =>
    simp only [starSpec, Bool.and_eq_true, Bool.or_eq_true, decide_eq_true_eq, ih]
    constructor
    · rintro ⟨hc, h | ⟨s, _, hs, rfl⟩⟩
      · exact ⟨[c], by simp, by simpa using Ne.symm hc, by simp [h]⟩
      · exact ⟨c :: s, by simp, by simpa using ⟨Ne.symm hc, hs⟩, by simp⟩
    · rintro ⟨s, hne, hs, h⟩
      cases s with
      | nil => exact absurd rfl hne
      | cons a s1 =>
        simp only [List.cons_append, List.cons.injEq] at h
        obtain ⟨rfl, rfl⟩ := h
        simp only [List.mem_cons, not_or] at hs
        refine ⟨Ne.symm hs.1, ?_⟩
        cases s1 with
        | nil => left; simp
        | cons b s2 => right; exact ⟨b :: s2, by simp, hs.2, rfl⟩

/-- `Match` on a pattern that is one chunk of plain bytes. -/
theorem Match_literal (p h : GoString) (hne : p ≠ []) (hsc : scanChunk p = (false, p, []))
    (hlit : Literal p) : Match p h = .ok (decide (h = p)) := by
  obtain ⟨c, p1, rfl⟩ := List.exists_cons_of_ne_nil hne
  simp only [Match, List.length_cons, matchLoop, hsc, matchChunk_literal _ h hlit]
  by_cases hp : (c :: p1) <+: h
  · by_cases hd : h.drop (p1.length + 1) = []
    · have : h = c :: p1 := (prefix_drop_nil_iff _ h).1 ⟨hp, by simpa using hd⟩
      simp [hp, hd, this, matchLoop]
    · have : h ≠ c :: p1 := fun e => hd (by simpa using ((prefix_drop_nil_iff _ h).2 e).2)
      simp [hp, hd, this]
  · have : h ≠ c :: p1 := fun e => hp ((prefix_drop_nil_iff _ h).2 e).1
    simp [hp, this]

/-- `Match` on a pattern that is a star followed by one chunk of plain bytes. -/
theorem Match_star_literal (p chunk h : GoString) (hsc : scanChunk p = (true, chunk, []))
    (hne : chunk ≠ []) (hlit : Literal chunk) :
    Match p h = .ok (decide (h = chunk) || starSpec chunk h) := by
  have hp : p ≠ [] := by rintro rfl; simp [scanChunk] at hsc
  obtain ⟨c, p1, rfl⟩ := List.exists_cons_of_ne_nil hp
  simp only [Match, List.length_cons, matchLoop, hsc, matchChunk_literal _ h hlit,
    decide_True, starLoop_literal chunk hlit]
  by_cases hpre : chunk <+: h
  · by_cases hd : h.drop chunk.length = []
    · have : h = chunk := (prefix_drop_nil_iff _ h).1 ⟨hpre, hd⟩
      simp [hpre, hd, this, matchLoop, hne]
    · have : h ≠ chunk := fun e => hd ((prefix_drop_nil_iff _ h).2 e).2
      cases hs : starSpec chunk h <;> simp [hpre, hd, this, hne, hs, matchLoop]
  · have : h ≠ chunk := fun e => hpre ((prefix_drop_nil_iff _ h).2 e).1
    cases hs : starSpec chunk h <;> simp [hpre, this, hne, hs, matchLoop]

end filepath

open filepath

theorem Match_cloud (h : GoString) :
    Match (str "container.cloud.google.com") h =
      .ok (decide (h = str "container.cloud.google.com")) :=
  Match_literal _ h (by decide) (by decide) (by decide)

theorem Match_gcr (h : GoString) :
    Match (str "gcr.io") h = .ok (decide (h = str "gcr.io")) :=
  Match_literal _ h (by decide) (by decide) (by decide)

theorem Match_star_gcr (h : GoString) :
    Match (str "*.gcr.io") h =
      .ok (decide (h = str ".gcr.io") || starSpec (str ".gcr.io") h) :=
  Match_star_literal _ _ h (by decide) (by decide) (by decide)

/-- The names the glob `*.gcr.io` matches: a run of bytes other than the
separator, empty or not, followed by `.gcr.io`. -/
theorem Match_star_gcr_iff (h : GoString) :
    Match (str "*.gcr.io") h = .ok true ↔
      ∃ s, Separator ∉ s ∧ h = s ++ str ".gcr.io" := by
  rw [Match_star_gcr]
  simp only [Except.ok.injEq, Bool.or_eq_true, decide_eq_true_eq, starSpec_iff]
  constructor
  · rintro (h3 | ⟨s, _, hs, rfl⟩)
    · exact ⟨[], by simp, by simp [h3]⟩
    · exact ⟨s, hs, rfl⟩
  · rintro ⟨s, hs, rfl⟩
    by_cases hne : s = []
    · left; simp [hne]
    · right; exact ⟨s, hne, hs, rfl⟩

/-- The value of `isGCRHost` on every host. -/
theorem isGCRHost_eq (h : GoString) :
    isGCRHost h =
      (decide (h = str "container.cloud.google.com") || decide (h = str "gcr.io") ||
        (decide (h = str ".gcr.io") || starSpec (str ".gcr.io") h)) := by
  simp only [isGCRHost, containerRegistryUrls, anyPatternMatches, Match_cloud, Match_gcr,
    Match_star_gcr]
  generalize decide (h = str "container.cloud.google.com") = a
  generalize decide (h = str "gcr.io") = b
  generalize (decide (h = str ".gcr.io") || starSpec (str ".gcr.io") h) = c
  cases a <;> cases b <;> cases c <;> rfl

/-- The hosts `isGCRHost` accepts. -/
theorem isGCRHost_iff (h : GoString) :
    isGCRHost h = true ↔
      h = str "container.cloud.google.com" ∨ h = str "gcr.io" ∨
        ∃ s, Separator ∉ s ∧ h = s ++ str ".gcr.io" := by
  rw [isGCRHost_eq]
  simp only [Bool.or_eq_true, decide_eq_true_eq, starSpec_iff]
  constructor
  · rintro ((h1 | h2) | (h3 | ⟨s, _, hs, rfl⟩))
    · exact Or.inl h1
    · exact Or.inr (Or.inl h2)
    · exact Or.inr (Or.inr ⟨[], by simp, by simp [h3]⟩)
    · exact Or.inr (Or.inr ⟨s, hs, rfl⟩)
  · rintro (h1 | h2 | ⟨s, hs, rfl⟩)
    · exact Or.inl (Or.inl h1)
    · exact Or.inl (Or.inr h2)
    · right
      by_cases hne : s = []
      · left; simp [hne]
      · right; exact ⟨s, hne, hs, rfl⟩


/-! ## The JSON text of a token decodes to the token -/

namespace json

open utf8

theorem validRune_char (c : Char) : ValidRune c.toNat := c.valid

theorem encodeRune_ge (r : Nat) (h : 128 ≤ r) : ∀ b ∈ EncodeRune r, 128 ≤ b := by
  unfold EncodeRune
  split_ifs <;> simp <;> omega

theorem hexVal_hexDigit (n : Nat) (h : n < 16) : hexVal (hexDigit n) = some n := by
  interval_cases n <;> rfl

theorem scanString_plain (bs s : GoString) (h : ∀ b ∈ bs, PlainByte b) :
    scanStringFrom .inString (bs ++ s) =
      (scanStringFrom .inString s).map (fun p => (bs ++ p.1, p.2)) := by
  induction bs with
  | nil => cases hs : scanStringFrom .inString s <;> simp [hs]
  | cons b bs ih =>
    obtain ⟨h1, h2, h3⟩ := h b (List.mem_cons_self _ _)
    have h4 : ¬ b < 32 := by omega
    have ih2 := ih (fun x hx => h x (List.mem_cons_of_mem _ hx))
    simp only [List.cons_append, scanStringFrom, h2, h3, h4, if_false, List.append_eq]
    rw [ih2]
    cases hs : scanStringFrom .inString s <;> simp

theorem scanString_escapeRune (r : Nat) (s : GoString) :
    scanStringFrom .inString (escapeRune r ++ s) =
      (scanStringFrom .inString s).map (fun p => (escapeRune r ++ p.1, p.2)) := by
  unfold escapeRune
  split_ifs with h1 h2 h3
  · cases h : scanStringFrom .inString s <;> simp [scanStringFrom, h]
  · cases h : scanStringFrom .inString s <;> simp [scanStringFrom, h]
  · have ha : (hexVal (hexDigit (r / 16))).isSome := by
      rw [hexVal_hexDigit _ (by omega)]; rfl
    have hb : (hexVal (hexDigit (r % 16))).isSome := by
      rw [hexVal_hexDigit _ (by omega)]; rfl
    have h0 : (hexVal 48).isSome := by decide
    cases h : scanStringFrom .inString s <;> simp [scanStringFrom, ha, hb, h0, h]
  · apply scanString_plain
    intro b hb
    by_cases h128 : r < 128
    · simp only [EncodeRune, h128, if_true, List.mem_singleton] at hb
      subst hb
      exact ⟨by omega, h1, h2⟩
    · have := encodeRune_ge r (by omega) b hb
      exact ⟨by omega, by omega, by omega⟩

theorem scanString_escape (cs : List Char) (s : GoString) :
    scanString (cs.flatMap (fun c => escapeRune c.toNat) ++ 34 :: s) =
      some (cs.flatMap (fun c => escapeRune c.toNat), s) := by
  unfold scanString
  induction cs with
  | nil => simp [scanStringFrom]
  | cons c cs ih =>
    simp only [List.flatMap_cons, List.append_assoc, scanString_escapeRune, ih]
    simp

end json

namespace json

open utf8

theorem encodeRune_cons (r : Nat) (h : 128 ≤ r) :
    ∃ b0 bs, EncodeRune r = b0 :: bs ∧ 128 ≤ b0 := by
  have hge := encodeRune_ge r h
  cases he : EncodeRune r with
  | nil =>
    unfold EncodeRune at he
    split_ifs at he
  | cons b0 bs => exact ⟨b0, bs, rfl, hge b0 (by simp [he])⟩

theorem escapeRune_length_pos (r : Nat) : 0 < (escapeRune r).length := by
  unfold escapeRune EncodeRune
  split_ifs <;> simp

theorem getu4_control (r : Nat) (h : r < 32) (s : GoString) :
    getu4 (92 :: 117 :: 48 :: 48 :: hexDigit (r / 16) :: hexDigit (r % 16) :: s) = some r := by
  have h0 : hexVal 48 = some 0 := by decide
  simp only [getu4, h0, hexVal_hexDigit (r / 16) (by omega), hexVal_hexDigit (r % 16) (by omega)]
  simp
  omega

theorem unquoteLoop_escapeRune (r : Nat) (hv : ValidRune r) (s : GoString) (fuel : Nat) :
    unquoteLoop (fuel + 1) (escapeRune r ++ s) = emit (EncodeRune r) (unquoteLoop fuel s) := by
  unfold escapeRune
  split_ifs with h1 h2 h3
  · subst h1
    simp [unquoteLoop, EncodeRune]
  · subst h2
    simp [unquoteLoop, EncodeRune]
  · have hs : ¬ (55296 ≤ r ∧ r < 57344) := by omega
    show unquoteLoop (fuel + 1)
        (92 :: 117 :: 48 :: 48 :: hexDigit (r / 16) :: hexDigit (r % 16) :: s) = _
    simp only [unquoteLoop]
    rw [getu4_control r h3]
    simp [hs]
  · by_cases h128 : r < 128
    · have h4 : ¬ (r = 34 ∨ r < 32) := by omega
      simp [EncodeRune, h128, unquoteLoop, h2, h4]
    · obtain ⟨b0, bs, he, hb0⟩ := encodeRune_cons r (by omega)
      have hd := decode_encode r s (by omega) hv
      rw [he] at hd ⊢
      have h5 : b0 ≠ 92 := by omega
      have h6 : ¬ (b0 = 34 ∨ b0 < 32) := by omega
      have h7 : ¬ b0 < 128 := by omega
      simp only [List.cons_append] at hd ⊢
      simp only [unquoteLoop, h5, h6, h7, if_false, hd]
      have : List.drop (b0 :: bs).length (b0 :: (bs ++ s)) = s := by
        rw [← List.cons_append, List.drop_left]
      rw [this, he]

theorem unquoteLoop_escape (cs : List Char) :
    ∀ fuel, (cs.flatMap (fun c => escapeRune c.toNat)).length < fuel →
      unquoteLoop fuel (cs.flatMap (fun c => escapeRune c.toNat)) =
        some (some (cs.flatMap (fun c => EncodeRune c.toNat))) := by
  induction cs with
  | nil =>
    intro fuel hf
    obtain ⟨f, rfl⟩ : ∃ f, fuel = f + 1 := ⟨fuel - 1, by simp at hf; omega⟩
    simp [unquoteLoop]
  | cons c cs ih =>
    intro fuel hf
    obtain ⟨f, rfl⟩ : ∃ f, fuel = f + 1 := ⟨fuel - 1, by omega⟩
    have hpos := escapeRune_length_pos c.toNat
    simp only [List.flatMap_cons, List.length_append] at hf ⊢
    rw [unquoteLoop_escapeRune _ (validRune_char c), ih f (by omega)]
    rfl

theorem needsNoUnquote_escapeRune (r : Nat) (hv : ValidRune r) (s : GoString) (fuel : Nat) :
    needsNoUnquote (fuel + 1) (escapeRune r ++ s) =
      if r = 34 ∨ r = 92 ∨ r < 32 then some false else needsNoUnquote fuel s := by
  unfold escapeRune
  split_ifs with h1 h2 h3 h4 h5 h6
  all_goals first | omega | skip
  · simp [needsNoUnquote]
  · simp [needsNoUnquote]
  · simp [needsNoUnquote]
  · by_cases h128 : r < 128
    · have h4 : ¬ (r = 92 ∨ r = 34 ∨ r < 32) := by omega
      simp [EncodeRune, h128, needsNoUnquote, h4]
    · obtain ⟨b0, bs, he, hb0⟩ := encodeRune_cons r (by omega)
      have hd := decode_encode r s (by omega) hv
      rw [he] at hd ⊢
      have h5 : ¬ (b0 = 92 ∨ b0 = 34 ∨ b0 < 32) := by omega
      have h7 : ¬ b0 < 128 := by omega
      simp only [List.cons_append] at hd ⊢
      have h8 : ¬ (r = RuneError ∧ (b0 :: bs).length = 1) := by
        rintro ⟨_, hl⟩
        have hbs : bs = [] := by simpa using hl
        rw [hbs] at he
        unfold EncodeRune at he
        split_ifs at he <;> simp at he
      simp only [needsNoUnquote, h5, h7, if_false, hd, h8]
      rw [← List.cons_append, List.drop_left]

theorem needsNoUnquote_escape (cs : List Char) :
    ∀ fuel, needsNoUnquote fuel (cs.flatMap (fun c => escapeRune c.toNat)) = some true →
      cs.flatMap (fun c => escapeRune c.toNat) = cs.flatMap (fun c => EncodeRune c.toNat) := by
  induction cs with
  | nil => intro _ _; rfl
  | cons c cs ih =>
    intro fuel hf
    cases fuel with
    | zero => simp [needsNoUnquote] at hf
    | succ f =>
      simp only [List.flatMap_cons] at hf ⊢
      rw [needsNoUnquote_escapeRune _ (validRune_char c)] at hf
      split_ifs at hf with h
      · simp at hf
      have hr : escapeRune c.toNat = EncodeRune c.toNat := by
        unfold escapeRune
        have h1 : c.toNat ≠ 34 := fun e => h (Or.inl e)
        have h2 : c.toNat ≠ 92 := fun e => h (Or.inr (Or.inl e))
        have h3 : ¬ c.toNat < 32 := fun e => h (Or.inr (Or.inr e))
        simp [h1, h2, h3]
      rw [hr, ih f hf]

theorem unquote_escapeString (t : String) : unquote (escapeString t) = some (str t) := by
  unfold unquote
  have hl := unquoteLoop_escape t.toList _ (Nat.lt_succ_self _)
  split
  · rename_i h
    exact congrArg some (needsNoUnquote_escape _ _ h)
  · exact (by
      show (match unquoteLoop ((escapeString t).length + 1) (escapeString t) with
        | some r => r
        | none => none) = some (str t)
      unfold escapeString
      rw [hl]
      rfl)

end json

namespace json

theorem parseValue_string (t : String) (n d : Nat) (rest : GoString) :
    parseValue (n + 1) d (34 :: (escapeString t ++ 34 :: rest)) =
      .value (.string (str t)) rest := by
  have hsc : scanString (escapeString t ++ 34 :: rest) = some (escapeString t, rest) :=
    scanString_escape t.toList rest
  simp [parseValue, skipSpace, isSpace, hsc, unquote_escapeString]

theorem scanString_key (rest : GoString) :
    scanString (97 :: 99 :: 99 :: 101 :: 115 :: 115 :: 95 :: 116 :: 111 :: 107 :: 101 :: 110 ::
      34 :: rest) = some (str "access_token", rest) := by
  have h := scanString_plain (str "access_token") (34 :: rest) (by decide)
  have h2 : scanStringFrom .inString (34 :: rest) = some ([], rest) := by
    simp [scanStringFrom]
  rw [h2] at h
  exact h

theorem parseMembers_token (t : String) (n d : Nat) (rest : GoString) :
    parseMembers (n + 2) d
      (34 :: 97 :: 99 :: 99 :: 101 :: 115 :: 115 :: 95 :: 116 :: 111 :: 107 :: 101 :: 110 ::
        34 :: 58 :: 34 :: (escapeString t ++ 34 :: 125 :: rest)) =
      .value [(str "access_token", .string (str t))] rest := by
  have hk : unquote (str "access_token") = some (str "access_token") := by decide
  simp [parseMembers, skipSpace, isSpace, scanString_key, hk, parseValue_string]

theorem tokenJSON_eq (t : String) :
    tokenJSON t =
      123 :: 34 :: 97 :: 99 :: 99 :: 101 :: 115 :: 115 :: 95 :: 116 :: 111 :: 107 :: 101 ::
        110 :: 34 :: 58 :: 34 :: (escapeString t ++ 34 :: 125 :: []) := by
  have h1 : str "\x7b\"access_token\":\"" =
      [123, 34, 97, 99, 99, 101, 115, 115, 95, 116, 111, 107, 101, 110, 34, 58, 34] := by decide
  have h2 : str "\"\x7d" = [34, 125] := by decide
  simp [tokenJSON, h1, h2]

theorem parse_tokenJSON (t : String) :
    parse (tokenJSON t) = some (.object [(str "access_token", .string (str t))]) := by
  rw [tokenJSON_eq]
  have hlen : ∀ (l : GoString), 2 * (123 :: 34 :: l).length + 2 = (2 * l.length + 3) + 3 := by
    intro l; simp only [List.length_cons]; omega
  unfold parse
  rw [hlen]
  have hd : ¬ maxNestingDepth ≤ 0 := by decide
  simp [parseValue, skipSpace, isSpace, hd, parseMembers_token, Scanned.map]

theorem Unmarshal_tokenJSON (t : String) :
    Unmarshal (tokenJSON t) = .ok { AccessToken := str t } := by
  have hs : selectsAccessToken (str "access_token") = true := by decide
  simp [Unmarshal, parse_tokenJSON, decodeValue, decodeMembers, hs, storeAccessToken]

end json

/-! ## `readUrl` by the outcome of the request -/

theorem readUrl_of_responds (w : World) (url : GoString) (header : Option Header)
    (resp : Response) (h : Responds w url header resp) :
    readUrl w url header =
      if resp.StatusCode ≠ StatusOK then
        .error (.http { StatusCode := resp.StatusCode, Url := url })
      else resp.Body := by
  obtain ⟨req, h1, h2⟩ := h
  unfold readUrl
  simp only [h1, h2]
  split_ifs
  · rfl
  · cases resp.Body <;> rfl

theorem readUrl_of_transportFails (w : World) (url : GoString) (header : Option Header)
    (e : GoError) (h : TransportFails w url header e) :
    readUrl w url header = .error e := by
  obtain ⟨req, h1, h2⟩ := h
  unfold readUrl
  simp only [h1, h2]

theorem responds_answering (status : Int) (body : Except GoError GoString) (errText url : GoString)
    (header : Option Header) :
    Responds (answering status body errText) url header { StatusCode := status, Body := body } :=
  ⟨_, rfl, rfl⟩

theorem transportFails_failing (e : GoError) (url : GoString) (header : Option Header) :
    TransportFails (failing e) url header e :=
  ⟨_, rfl, rfl⟩

/-! ## The claims -/

/-- C1: when the metadata endpoint answers with status 200 and a body that is
the JSON object `{"access_token": t}`, for any token string `t`,
`getCredentialsForGCR` returns no error and a `DockerAuth` whose `Username` is
the literal `oauth2accesstoken` and whose `Password` is `t`. -/
theorem getCredentialsForGCR_token (w : World) (t : String)
    (h : Responds w metadataURL (some metadataHeader)
      { StatusCode := 200, Body := .ok (tokenJSON t) }) :
    getCredentialsForGCR w =
      .ok { Username := str "oauth2accesstoken", Password := str t } := by
  unfold getCredentialsForGCR
  rw [readUrl_of_responds w _ _ _ h]
  simp [StatusOK, json.Unmarshal_tokenJSON]

theorem getCredentialsForGCR_token_witness :
    tokenJSON "abc123" = sampleBody ∧
    getCredentialsForGCR (answering 200 (.ok (sampleBody)) []) =
      .ok { Username := str "oauth2accesstoken", Password := str "abc123" } :=
  ⟨by decide, getCredentialsForGCR_token _ "abc123" (responds_answering _ _ _ _ _)⟩

/-- C2: for every string `s` without the separator `/` (empty or dotted as it
may be), `isGCRHost (s ++ ".gcr.io")` is true: every host that the glob
`*.gcr.io` matches is a GCR host. -/
theorem isGCRHost_star_gcr_io (s : GoString) (hs : filepath.Separator ∉ s) :
    isGCRHost (s ++ str ".gcr.io") = true :=
  (isGCRHost_iff _).2 (Or.inr (Or.inr ⟨s, hs, rfl⟩))

theorem isGCRHost_star_gcr_io_witness :
    isGCRHost (str "foo.gcr.io") = true ∧ isGCRHost (str "bar.gcr.io") = true ∧
      isGCRHost (str "a.b.gcr.io") = true ∧ isGCRHost (str ".gcr.io") = true :=
  ⟨isGCRHost_star_gcr_io (str "foo") (by decide),
   isGCRHost_star_gcr_io (str "bar") (by decide),
   isGCRHost_star_gcr_io (str "a.b") (by decide),
   isGCRHost_star_gcr_io [] (by decide)⟩

/-- C3: `isGCRHost` is true on `container.cloud.google.com` and on `gcr.io`:
each literal entry of `containerRegistryUrls` matches itself. -/
theorem isGCRHost_literal_entries :
    isGCRHost (str "container.cloud.google.com") = true ∧
    isGCRHost (str "gcr.io") = true ∧
    filepath.Match (str "container.cloud.google.com") (str "container.cloud.google.com")
      = .ok true ∧
    filepath.Match (str "gcr.io") (str "gcr.io") = .ok true :=
  ⟨(isGCRHost_iff _).2 (Or.inl rfl), (isGCRHost_iff _).2 (Or.inr (Or.inl rfl)),
   by rw [Match_cloud]; rfl, by rw [Match_gcr]; rfl⟩

/-- C4: for every host that is neither `container.cloud.google.com` nor
`gcr.io` and does not end, byte for byte, with `.gcr.io`, `isGCRHost` is
false. -/
theorem isGCRHost_false_of_no_suffix (h : GoString)
    (h1 : h ≠ str "container.cloud.google.com") (h2 : h ≠ str "gcr.io")
    (h3 : ¬ (str ".gcr.io" <:+ h)) : isGCRHost h = false := by
  rw [Bool.eq_false_iff]
  intro ht
  rcases (isGCRHost_iff h).1 ht with e | e | ⟨s, _, e⟩
  · exact h1 e
  · exact h2 e
  · exact h3 ⟨s, e.symm⟩

theorem isGCRHost_false_of_no_suffix_witness :
    isGCRHost (str "gcr.io.attacker.com") = false ∧
    isGCRHost (str "gcr.io.evil.com") = false ∧
    isGCRHost (str "docker.io") = false ∧
    isGCRHost (str "foo.GCR.IO") = false :=
  ⟨isGCRHost_false_of_no_suffix _ (by decide) (by decide) (by decide),
   isGCRHost_false_of_no_suffix _ (by decide) (by decide) (by decide),
   isGCRHost_false_of_no_suffix _ (by decide) (by decide) (by decide),
   isGCRHost_false_of_no_suffix _ (by decide) (by decide) (by decide)⟩

/-- C5: for every status code `c` outside 200..299 that the metadata endpoint
returns, `getCredentialsForGCR` returns no credential and an error whose
text holds the decimal code `c` and the metadata URL: `readUrl` returns
`HttpError{c, metadataURL}`, whose text is
`http status code: <c> while fetching url <url>`, and the error returned is
made of that text after `while querying metadata endpoint: `. -/
theorem getCredentialsForGCR_status_error (w : World) (c : Int)
    (body : Except GoError GoString)
    (h : Responds w metadataURL (some metadataHeader) { StatusCode := c, Body := body })
    (hc : ¬ (200 ≤ c ∧ c ≤ 299)) :
    readUrl w metadataURL (some metadataHeader) =
      .error (.http { StatusCode := c, Url := metadataURL }) ∧
    HttpError.Error { StatusCode := c, Url := metadataURL } =
      str "http status code: " ++ fmtInt c ++ str " while fetching url " ++ metadataURL ∧
    ∃ text, getCredentialsForGCR w = .error (.errorf text) ∧
      text = str "while querying metadata endpoint: " ++
        HttpError.Error { StatusCode := c, Url := metadataURL } ∧
      fmtInt c <:+: text ∧ metadataURL <:+: text := by
  have hne : c ≠ StatusOK := by unfold StatusOK; omega
  have hr : readUrl w metadataURL (some metadataHeader) =
      .error (.http { StatusCode := c, Url := metadataURL }) := by
    rw [readUrl_of_responds w _ _ _ h]
    simp [hne]
  refine ⟨hr, rfl, _, ?_, rfl, ?_, ?_⟩
  · unfold getCredentialsForGCR
    rw [hr]
    rfl
  · exact ⟨str "while querying metadata endpoint: " ++ str "http status code: ",
      str " while fetching url " ++ metadataURL, by simp [HttpError.Error]⟩
  · exact ⟨str "while querying metadata endpoint: " ++ str "http status code: " ++ fmtInt c ++
      str " while fetching url ", [], by simp [HttpError.Error]⟩

set_option maxRecDepth 100000 in
theorem getCredentialsForGCR_status_error_witness :
    fmtInt 403 = str "403" ∧
    getCredentialsForGCR (answering 403 (.ok (str "Forbidden")) []) =
      .error (.errorf (str ("while querying metadata endpoint: http status code: 403 " ++
        "while fetching url http://169.254.169.254/computeMetadata/v1/instance/" ++
        "service-accounts/default/token"))) := by
  refine ⟨by decide, ?_⟩
  obtain ⟨_, _, text, h1, h2, _⟩ :=
    getCredentialsForGCR_status_error (answering 403 (.ok (str "Forbidden")) []) 403
      (.ok (str "Forbidden")) (responds_answering _ _ _ _ _) (by decide)
  rw [h1, h2]
  rfl

/-- C6: for every response with status 200 whose body `b` is not valid JSON,
`getCredentialsForGCR` returns no credential and a parse error, whose text is
`while parsing json blob ` followed by `b`, `: ` and the text of the JSON
error; it holds the raw body `b` as a substring. -/
theorem getCredentialsForGCR_parse_error (w : World) (b : GoString)
    (h : Responds w metadataURL (some metadataHeader) { StatusCode := 200, Body := .ok b })
    (hb : json.Valid b = false) :
    ∃ text, getCredentialsForGCR w = .error (.errorf text) ∧
      text = str "while parsing json blob " ++ b ++ str ": " ++
        w.jsonErrorText json.UnmarshalError.SyntaxError ∧
      b <:+: text := by
  have hp : json.parse b = none := by
    unfold json.Valid at hb
    cases hpb : json.parse b with
    | none => rfl
    | some v => rw [hpb] at hb; simp at hb
  refine ⟨_, ?_, rfl, ?_⟩
  · unfold getCredentialsForGCR
    rw [readUrl_of_responds w _ _ _ h]
    simp [StatusOK, json.Unmarshal, hp, GoError.Error]
  · exact ⟨str "while parsing json blob ",
      str ": " ++ w.jsonErrorText json.UnmarshalError.SyntaxError, by simp⟩

theorem getCredentialsForGCR_parse_error_witness :
    json.Valid (str "not-json") = false ∧
    ∃ text, getCredentialsForGCR (answering 200 (.ok (str "not-json")) (str "invalid")) =
        .error (.errorf text) ∧
      text = str "while parsing json blob " ++ str "not-json" ++ str ": " ++ str "invalid" ∧
      str "not-json" <:+: text :=
  ⟨by decide,
   getCredentialsForGCR_parse_error (answering 200 (.ok (str "not-json")) (str "invalid"))
     (str "not-json") (responds_answering _ _ _ _ _) (by decide)⟩

/-- C7 (as the code has it): on a transport failure of the HTTP call, where
the client returns an error `e` instead of a response, `readUrl` returns `e`
itself, and `getCredentialsForGCR` returns a new error made by `fmt.Errorf`,
whose text is `while querying metadata endpoint: ` followed by the text of
`e`. -/
theorem getCredentialsForGCR_transport_error (w : World) (e : GoError)
    (h : TransportFails w metadataURL (some metadataHeader) e) :
    readUrl w metadataURL (some metadataHeader) = .error e ∧
    getCredentialsForGCR w =
      .error (.errorf (str "while querying metadata endpoint: " ++ e.Error w)) := by
  have hr := readUrl_of_transportFails w _ _ e h
  refine ⟨hr, ?_⟩
  unfold getCredentialsForGCR
  rw [hr]

theorem getCredentialsForGCR_transport_error_witness :
    readUrl (failing (.foreign (str "connection refused"))) metadataURL (some metadataHeader) =
      .error (.foreign (str "connection refused")) ∧
    getCredentialsForGCR (failing (.foreign (str "connection refused"))) =
      .error (.errorf (str "while querying metadata endpoint: " ++ str "connection refused")) :=
  getCredentialsForGCR_transport_error (failing (.foreign (str "connection refused")))
    (.foreign (str "connection refused")) (transportFails_failing _ _ _)

/-- C7 as stated fails: the client fails with the transport error
`connection refused`, and the error `getCredentialsForGCR` returns is not that
error but one made by `fmt.Errorf` around its text. -/
theorem getCredentialsForGCR_transport_error_wrapped :
    TransportFails (failing (.foreign (str "connection refused"))) metadataURL
      (some metadataHeader) (.foreign (str "connection refused")) ∧
    getCredentialsForGCR (failing (.foreign (str "connection refused"))) ≠
      .error (.foreign (str "connection refused")) := by
  refine ⟨transportFails_failing _ _ _, ?_⟩
  intro h
  have h2 : getCredentialsForGCR (failing (.foreign (str "connection refused"))) =
      .error (.errorf (str "while querying metadata endpoint: " ++ str "connection refused")) :=
    rfl
  rw [h2] at h
  cases h

/-- C8 (as the code has it): the HTTP status error is raised for every status
other than 200 (`http.StatusOK`), the other 2xx codes included: for every
response whose body can be read in full, `readUrl` returns that body with no
error when the status code is 200, and an `HttpError` with the code and the
URL when it is any other code. -/
theorem readUrl_status (w : World) (url : GoString) (header : Option Header) (c : Int)
    (b : GoString) (h : Responds w url header { StatusCode := c, Body := .ok b }) :
    (c = 200 → readUrl w url header = .ok b) ∧
    (c ≠ 200 → readUrl w url header = .error (.http { StatusCode := c, Url := url })) := by
  rw [readUrl_of_responds w _ _ _ h]
  constructor
  · intro hc
    simp [hc, StatusOK]
  · intro hc
    simp [hc, StatusOK]

theorem readUrl_status_witness :
    readUrl (answering 200 (.ok (str "\x7b\x7d")) []) metadataURL (some metadataHeader) =
      .ok (str "\x7b\x7d") ∧
    readUrl (answering 204 (.ok []) []) metadataURL (some metadataHeader) =
      .error (.http { StatusCode := 204, Url := metadataURL }) :=
  ⟨(readUrl_status (answering 200 (.ok (str "\x7b\x7d")) []) metadataURL (some metadataHeader) 200
      (str "\x7b\x7d") (responds_answering _ _ _ _ _)).1 rfl,
   (readUrl_status (answering 204 (.ok []) []) metadataURL (some metadataHeader) 204
      [] (responds_answering _ _ _ _ _)).2 (by decide)⟩

/-- C8 as stated fails: the endpoint answers with status 201, inside
200..299, and a body that is read in full, and `readUrl` returns an
`HttpError`, not the body. -/
theorem readUrl_status_201 :
    Responds (answering 201 (.ok (sampleBody)) []) metadataURL
      (some metadataHeader)
      { StatusCode := 201, Body := .ok (sampleBody) } ∧
    readUrl (answering 201 (.ok (sampleBody)) []) metadataURL
      (some metadataHeader) = .error (.http { StatusCode := 201, Url := metadataURL }) ∧
    readUrl (answering 201 (.ok (sampleBody)) []) metadataURL
      (some metadataHeader) ≠ .ok (sampleBody) := by
  refine ⟨responds_answering _ _ _ _ _, rfl, ?_⟩
  intro h
  have h2 : readUrl (answering 201 (.ok (sampleBody)) []) metadataURL
      (some metadataHeader) = .error (.http { StatusCode := 201, Url := metadataURL }) := rfl
  rw [h2] at h
  cases h

theorem anyPatternMatches_iff (ps : List GoString) (host : GoString) :
    anyPatternMatches ps host = true ↔ ∃ p ∈ ps, filepath.Match p host = .ok true := by
  induction ps with
  | nil => simp [anyPatternMatches]
  | cons p ps ih =>
    unfold anyPatternMatches
    cases hm : filepath.Match p host with
    | error e => simp [hm, ih]
    | ok b => cases b <;> simp [hm, ih]

theorem Match_fixed_ok (host p : GoString) (hp : p ∈ containerRegistryUrls) :
    ∃ b, filepath.Match p host = .ok b := by
  simp only [containerRegistryUrls, List.mem_cons, List.mem_singleton, List.not_mem_nil,
    or_false] at hp
  rcases hp with rfl | rfl | rfl
  · exact ⟨_, Match_cloud host⟩
  · exact ⟨_, Match_gcr host⟩
  · exact ⟨_, Match_star_gcr host⟩

/-- C9: `isGCRHost` never fails and never stops early on a bad pattern. Over
an arbitrary pattern list the loop returns true exactly when some pattern of
the list matches the host with no error, and false otherwise; a pattern on
which `filepath.Match` returns an error counts as not matching, and the
patterns after it are still tried. `isGCRHost` is that loop on
`containerRegistryUrls`, and on no host does `filepath.Match` return an error
for one of these three patterns. -/
theorem isGCRHost_skips_bad_patterns :
    (∀ ps host, anyPatternMatches ps host = true ↔
        ∃ p ∈ ps, filepath.Match p host = .ok true) ∧
    (∀ ps host, anyPatternMatches ps host = false ↔
        ∀ p ∈ ps, filepath.Match p host ≠ .ok true) ∧
    (∀ p ps host e, filepath.Match p host = .error e →
        anyPatternMatches (p :: ps) host = anyPatternMatches ps host) ∧
    (∀ host, isGCRHost host = anyPatternMatches containerRegistryUrls host) ∧
    (∀ host, ∀ p ∈ containerRegistryUrls, ∃ b, filepath.Match p host = .ok b) := by
  refine ⟨anyPatternMatches_iff, ?_, ?_, fun _ => rfl, fun host p hp => Match_fixed_ok host p hp⟩
  · intro ps host
    rw [← Bool.not_eq_true, anyPatternMatches_iff]
    simp
  · intro p ps host e he
    simp [anyPatternMatches, he]

theorem isGCRHost_skips_bad_patterns_witness :
    filepath.Match (str "[") (str "gcr.io") = .error .ErrBadPattern ∧
    anyPatternMatches [str "[", str "gcr.io"] (str "gcr.io") = true ∧
    anyPatternMatches [str "[", str "docker.io"] (str "gcr.io") = false := by
  have he : filepath.Match (str "[") (str "gcr.io") = .error .ErrBadPattern := rfl
  refine ⟨he, ?_, ?_⟩
  · rw [isGCRHost_skips_bad_patterns.2.2.1 _ _ _ _ he]
    decide
  · rw [isGCRHost_skips_bad_patterns.2.2.1 _ _ _ _ he]
    decide

/-- C10: for every string that contains the separator `/`, `isGCRHost` is
false, also when the string ends with `.gcr.io`; and `isGCRHost h` is true if
and only if `h` is `container.cloud.google.com`, `h` is `gcr.io`, or
`h = s ++ ".gcr.io"` for a string `s` free of `/`. -/
theorem isGCRHost_characterisation :
    (∀ h, filepath.Separator ∈ h → isGCRHost h = false) ∧
    (∀ h, isGCRHost h = true ↔
      h = str "container.cloud.google.com" ∨ h = str "gcr.io" ∨
        ∃ s, filepath.Separator ∉ s ∧ h = s ++ str ".gcr.io") ∧
    isGCRHost (str "attacker.com/x.gcr.io") = false := by
  have key : ∀ h, filepath.Separator ∈ h → isGCRHost h = false := by
    intro h hsep
    rw [Bool.eq_false_iff]
    intro ht
    rcases (isGCRHost_iff h).1 ht with e | e | ⟨s, hs, e⟩
    · subst e; revert hsep; decide
    · subst e; revert hsep; decide
    · subst e
      rcases List.mem_append.1 hsep with h1 | h1
      · exact hs h1
      · revert h1; decide
  exact ⟨key, isGCRHost_iff, key _ (by decide)⟩

end Gcr
